import Mathlib

/-! tool-box: the CSV to nested JSON converter.

A shallow embedding of `src/Cpp/ReadCsv.cpp` (`ReadCsv`, `ParseValue`,
`SetNestedValue`, `main`) together with the parts of the C++ standard library
and of `nlohmann::json` that these functions call.

* A `std::string` is a list of characters (`Str`), one `Char` standing for one
  encoded character; every byte the program itself inspects (quote, comma,
  dot, digits, signs, white space) is ASCII.  The one step whose outcome
  depends on how the text is encoded, `dump(2)`, which refuses text that is
  not valid UTF-8, is a parameter of `mainRun`; `main` is the run up to the
  document handed to that step.
* An exception is a value of `Exn`; a function that may throw returns `Except Exn`.
* A `json` object is a `std::map`: an association list kept sorted by key.
-/

namespace ToolBox

/-- Text held by a `std::string`. -/
abbrev Str := List Char

/-- The character `"` (code 34). -/
def dquote : Char := Char.ofNat 34

/-- The character `,` (code 44). -/
def comma : Char := Char.ofNat 44

/-- The character `.` (code 46). -/
def dot : Char := Char.ofNat 46

/-- The line feed character (code 10). -/
def newline : Char := Char.ofNat 10

/-- The terminating character of a C string (code 0). -/
def nul : Char := Char.ofNat 0

/-- Exceptions the program can raise (all derive from `std::exception`). -/
inductive Exn where
  /-- Thrown as `std::runtime_error(what)` by the program itself. -/
  | runtime_error (what : Str)
  /-- Thrown as `std::invalid_argument` by `std::stoi` or `std::stod`: no conversion. -/
  | invalid_argument (what : Str)
  /-- Thrown as `std::out_of_range` by `std::stoi` or `std::stod`: value not representable. -/
  | out_of_range (what : Str)
  /-- Thrown as `std::length_error` by a `std::vector` asked to exceed `max_size()`. -/
  | length_error (what : Str)
  /-- Thrown as `nlohmann::json::type_error` with the given id. -/
  | type_error (id : Nat) (what : Str)
  /-- Not an exception: an element access past the end of a `std::vector`,
  where the behaviour of the program is undefined.  The embedding stops here. -/
  | out_of_bounds
  deriving DecidableEq, Repr

/-- The text returned by `std::exception::what()`. -/
def Exn.what : Exn → Str
  | .runtime_error w => w
  | .invalid_argument w => w
  | .out_of_range w => w
  | .length_error w => w
  | .type_error _ w => w
  | .out_of_bounds => []

/-! ## `std::getline` -/

/-- Repeated `std::getline(stream, token, delim)` until it fails, as in
`while (std::getline(...)) out.push_back(token)`.  `tok` is the token read so
far.  A call that meets end of input before extracting anything fails, so
text ending in the delimiter yields no final empty token. -/
def getlineAux (delim : Char) : Str → Str → List Str
  | [], tok => if tok = [] then [] else [tok]
  | c :: cs, tok =>
    if c = delim then tok :: getlineAux delim cs []
    else getlineAux delim cs (tok ++ [c])

/-- All tokens `std::getline` extracts from `input` with delimiter `delim`. -/
def getlines (delim : Char) (input : Str) : List Str := getlineAux delim input []

/-! ## `ReadCsv` -/

/-- The `for` loop of `ReadCsv` over one line (lines 28-56), from position `i`
on: the argument list is `line[i..]`, and `inQuotes`, `cell`, `row` are the
loop's variables.  At the end of the line the cell is appended (line 56). -/
def parseLineAux : Str → Bool → Str → List Str → List Str
  | [], _, cell, row => row ++ [cell]
  | [c], inQuotes, cell, row =>
    if c = dquote then parseLineAux [] (!inQuotes) cell row
    else if c = comma && !inQuotes then parseLineAux [] inQuotes [] (row ++ [cell])
    else parseLineAux [] inQuotes (cell ++ [c]) row
  | c :: c2 :: rest, inQuotes, cell, row =>
    if c = dquote then
      if inQuotes && c2 = dquote then parseLineAux rest inQuotes (cell ++ [dquote]) row
      else parseLineAux (c2 :: rest) (!inQuotes) cell row
    else if c = comma && !inQuotes then parseLineAux (c2 :: rest) inQuotes [] (row ++ [cell])
    else parseLineAux (c2 :: rest) inQuotes (cell ++ [c]) row

/-- The body of the `while` loop of `ReadCsv` (lines 24-56): one line to one row. -/
def parseLine (line : Str) : List Str := parseLineAux line false [] []

/-- The function `ReadCsv` (lines 14-60).  The file at `path` is `none` when
it cannot be opened, else `some text`, the characters the text-mode stream
delivers. -/
def ReadCsv (path : Str) (file : Option Str) : Except Exn (List (List Str)) :=
  match file with
  | none => .error (.runtime_error ("CSV ファイルを開けません: ".toList ++ path))
  | some text => .ok ((getlines newline text).map parseLine)

/-! ## Writing a row as a quoted CSV line (the inverse direction of claim C1) -/

/-- A cell's text with every double quote doubled. -/
def escapeCell : Str → Str
  | [] => []
  | c :: cs => if c = dquote then dquote :: dquote :: escapeCell cs else c :: escapeCell cs

/-- A cell wrapped in double quotes, inner quotes doubled. -/
def quoteCell (cell : Str) : Str := dquote :: (escapeCell cell ++ [dquote])

/-- The quoted cells joined with commas. -/
def csvLine : List Str → Str
  | [] => []
  | [c] => quoteCell c
  | c :: c2 :: cs => quoteCell c ++ comma :: csvLine (c2 :: cs)

/-! ## C library character classes and numerals -/

/-- The C function `isspace` in the "C" locale: space, `\t`, `\n`, `\v`, `\f`, `\r`. -/
def isspace (c : Char) : Bool := c.toNat = 32 || (9 ≤ c.toNat && c.toNat ≤ 13)

/-- The C function `isdigit`: the characters `0` to `9`. -/
def isdigit (c : Char) : Bool := 48 ≤ c.toNat && c.toNat ≤ 57

/-- The C function `isxdigit`: decimal digits and the letters `a`-`f`, `A`-`F`. -/
def isxdigit (c : Char) : Bool :=
  isdigit c || (97 ≤ c.toNat && c.toNat ≤ 102) || (65 ≤ c.toNat && c.toNat ≤ 70)

/-- The C function `isalnum` in the "C" locale. -/
def isalnum (c : Char) : Bool :=
  isdigit c || (97 ≤ c.toNat && c.toNat ≤ 122) || (65 ≤ c.toNat && c.toNat ≤ 90)

/-- The C function `tolower` in the "C" locale. -/
def tolower (c : Char) : Char :=
  if 65 ≤ c.toNat && c.toNat ≤ 90 then Char.ofNat (c.toNat + 32) else c

/-- Value of one (hexadecimal) digit character. -/
def digitVal (c : Char) : Nat :=
  if isdigit c then c.toNat - 48
  else if 97 ≤ c.toNat && c.toNat ≤ 102 then c.toNat - 87
  else c.toNat - 55

/-- Value of a digit string in the given base, most significant digit first,
continuing from the value `acc` of the digits already read. -/
def digitsValFrom (base : Nat) : Str → Nat → Nat
  | [], acc => acc
  | c :: cs, acc => digitsValFrom base cs (acc * base + digitVal c)

/-- Value of a digit string in the given base. -/
def digitsVal (base : Nat) (ds : Str) : Nat := digitsValFrom base ds 0

/-- The text `std::string::c_str()` presents to a C function: everything
before the first NUL character. -/
def c_str (s : Str) : Str := s.takeWhile (fun c => c != nul)

/-- An optional sign at the head of the text: whether it is `-`, how many
characters it takes, and the text after it. -/
def scanSign : Str → Bool × Nat × Str
  | [] => (false, 0, [])
  | c :: cs =>
    if c.toNat = 45 then (true, 1, cs)
    else if c.toNat = 43 then (false, 1, cs)
    else (false, 0, c :: cs)

/-! ## `std::stoi` -/

/-- Least value of a 32-bit `int`. -/
def INT_MIN : Int := -2147483648

/-- Greatest value of a 32-bit `int`. -/
def INT_MAX : Int := 2147483647

/-- The call `std::stoi(str, &pos)` (base 10), i.e. `strtol` on `str.c_str()` followed by
the range check of the libstdc++ wrapper: leading white space is skipped, an
optional sign is read, then the longest run of digits.  Without a digit it
throws `invalid_argument`; when the value does not fit `int` (whether or not
it fits `long`) it throws `out_of_range`; else it returns the value and the
number of characters consumed. -/
def stoi (str : Str) : Except Exn (Int × Nat) :=
  let s := c_str str
  let ws := s.takeWhile isspace
  let (neg, signLen, body) := scanSign (s.dropWhile isspace)
  let ds := body.takeWhile isdigit
  if ds = [] then .error (.invalid_argument "stoi".toList)
  else
    let m : Int := digitsVal 10 ds
    let v : Int := if neg then -m else m
    if v < INT_MIN ∨ INT_MAX < v then .error (.out_of_range "stoi".toList)
    else .ok (v, ws.length + signLen + ds.length)

/-! ## `std::stod` -/

/-- The value `strtod` reads, kept exact: `finite neg mant base exp` is
`± mant * base ^ exp` with `base` 10 (decimal text) or 2 (hexadecimal text).
Rounding to binary64 is not modelled; no statement below depends on which
`double` a text denotes. -/
inductive Double where
  | finite (neg : Bool) (mant : Nat) (base : Nat) (exp : Int)
  | inf (neg : Bool)
  | nan (neg : Bool)
  deriving DecidableEq, Repr

/-- An exponent part: the marker character (`e` or `p`, either case), an
optional sign and at least one decimal digit.  Returns the exponent and the
number of characters it takes; `(0, 0)` when there is no exponent part. -/
def scanExponent (marker : Char) : Str → Int × Nat
  | [] => (0, 0)
  | c :: cs =>
    if tolower c = marker then
      let (neg, signLen, body) := scanSign cs
      let ds := body.takeWhile isdigit
      if ds = [] then (0, 0)
      else
        let e : Int := digitsVal 10 ds
        (if neg then -e else e, 1 + signLen + ds.length)
    else (0, 0)

/-- A mantissa in the given base (10 or 16): digits, optionally a point and
more digits, at least one digit in all.  Returns the digit value with the
point removed, the number of digits after the point, the number of
characters taken and the text that follows. -/
def scanMantissa (base : Nat) (s : Str) : Option (Nat × Nat × Nat × Str) :=
  let isd := if base = 16 then isxdigit else isdigit
  let ip := s.takeWhile isd
  let r1 := s.dropWhile isd
  let (fp, pointLen, r2) :=
    match r1 with
    | [] => (([] : Str), 0, ([] : Str))
    | c :: cs => if c = dot then (cs.takeWhile isd, 1, cs.dropWhile isd) else ([], 0, c :: cs)
  if ip = [] ∧ fp = [] then none
  else some (digitsVal base (ip ++ fp), fp.length, ip.length + pointLen + fp.length, r2)

/-- Whether the text starts, ignoring case, with the given lower-case word. -/
def startsWithCI (word : Str) (s : Str) : Bool :=
  (s.take word.length).map tolower = word

/-- The optional `(n-char-sequence)` after `nan`: its length, parentheses
included, or 0 when it is absent or unclosed. -/
def scanNanChars (s : Str) : Nat :=
  match s with
  | [] => 0
  | c :: cs =>
    if c.toNat = 40 then
      let body := cs.takeWhile (fun x => isalnum x || x.toNat = 95)
      match cs.dropWhile (fun x => isalnum x || x.toNat = 95) with
      | [] => 0
      | d :: _ => if d.toNat = 41 then body.length + 2 else 0
    else 0

/-- The subject sequence `strtod` recognises after white space and sign:
`inf`/`infinity`, `nan` with optional payload, hexadecimal or decimal
floating text.  Returns the magnitude and the characters taken. -/
def scanFloatBody (body : Str) : Option (Double × Nat) :=
  if startsWithCI "infinity".toList body then some (.inf false, 8)
  else if startsWithCI "inf".toList body then some (.inf false, 3)
  else if startsWithCI "nan".toList body then some (.nan false, 3 + scanNanChars (body.drop 3))
  else
    let hex :=
      if startsWithCI "0x".toList body then
        match scanMantissa 16 (body.drop 2) with
        | some (m, fracLen, len, rest) =>
          let (e, eLen) := scanExponent (Char.ofNat 112) rest
          some (Double.finite false m 2 (e - 4 * (fracLen : Int)), 2 + len + eLen)
        | none => none
      else none
    match hex with
    | some r => some r
    | none =>
      match scanMantissa 10 body with
      | some (m, fracLen, len, rest) =>
        let (e, eLen) := scanExponent (Char.ofNat 101) rest
        some (Double.finite false m 10 (e - (fracLen : Int)), len + eLen)
      | none => none

/-- Two to the power `n`. -/
def pow2 (n : Nat) : Nat := 2 ^ n

/-- Least magnitude that rounds to infinity in binary64: `2^1024 - 2^970`. -/
def dblOverflow : Nat := pow2 1024 - pow2 970

/-- Whether `strtod` reports `ERANGE` for the exact value: its magnitude
rounds to infinity (at least `2^1024 - 2^970`), or it is non-zero and below
the least normal `double` `2^-1022` (whether an exactly representable
subnormal is reported is left to the implementation by the C standard; here
it is). -/
def Double.erange : Double → Bool
  | .finite _ m b e =>
    if 0 ≤ e then decide (dblOverflow ≤ m * b ^ e.toNat)
    else decide (dblOverflow * b ^ (-e).toNat ≤ m)
      || (decide (m ≠ 0) && decide (m * pow2 1022 < b ^ (-e).toNat))
  | _ => false

/-- Gives the value the sign read before it. -/
def Double.withSign (neg : Bool) : Double → Double
  | .finite _ m b e => .finite neg m b e
  | .inf _ => .inf neg
  | .nan _ => .nan neg

/-- The call `std::stod(str, &pos)`, i.e. `strtod` on `str.c_str()` followed by the
checks of the libstdc++ wrapper: `invalid_argument` when nothing is
converted, `out_of_range` on `ERANGE`, else the value and the number of
characters consumed. -/
def stod (str : Str) : Except Exn (Double × Nat) :=
  let s := c_str str
  let ws := s.takeWhile isspace
  let (neg, signLen, body) := scanSign (s.dropWhile isspace)
  match scanFloatBody body with
  | none => .error (.invalid_argument "stod".toList)
  | some (d, len) =>
    if d.erange then .error (.out_of_range "stod".toList)
    else .ok (d.withSign neg, ws.length + signLen + len)

/-! ## `nlohmann::json` values -/

/-- A `nlohmann::json` value.  `int` is `number_integer`, `float` is
`number_float`; an object is a `std::map`, its members sorted by key. -/
inductive Json where
  | null
  | bool (b : Bool)
  | int (n : Int)
  | float (d : Double)
  | str (s : Str)
  | arr (items : List Json)
  | obj (members : List (Str × Json))
  deriving Repr

/-- The name `nlohmann::json::type_name()` gives the value's type. -/
def Json.type_name : Json → Str
  | .null => "null".toList
  | .bool _ => "boolean".toList
  | .int _ => "number".toList
  | .float _ => "number".toList
  | .str _ => "string".toList
  | .arr _ => "array".toList
  | .obj _ => "object".toList

/-- The order of `std::map<std::string, json>` keys: `std::string`
comparison, lexicographic on character codes. -/
def strLt : Str → Str → Bool
  | [], [] => false
  | [], _ :: _ => true
  | _ :: _, [] => false
  | a :: as, b :: bs => decide (a.toNat < b.toNat) || (a == b && strLt as bs)

/-- Looks a key up among the members of an object (`std::map::find`). -/
def objFind (k : Str) : List (Str × Json) → Option Json
  | [] => none
  | (k0, v0) :: ms => if k0 = k then some v0 else objFind k ms

/-- Assigns `v` under `k` among the sorted members of an object: replaces the
value of an existing key, else inserts the new member at its sorted place. -/
def objSet (k : Str) (v : Json) : List (Str × Json) → List (Str × Json)
  | [] => [(k, v)]
  | (k0, v0) :: ms =>
    if k0 = k then (k, v) :: ms
    else if strLt k k0 then (k, v) :: (k0, v0) :: ms
    else (k0, v0) :: objSet k v ms

/-- Removes the member with key `k` (`std::map::erase(key)`). -/
def objErase (k : Str) : List (Str × Json) → List (Str × Json)
  | [] => []
  | (k0, v0) :: ms => if k0 = k then objErase k ms else (k0, v0) :: objErase k ms

/-- The method `json::contains(key)`: true exactly for an object that has the key. -/
def Json.contains (j : Json) (k : Str) : Bool :=
  match j with
  | .obj ms => (objFind k ms).isSome
  | _ => false

/-- The method `json::is_array()`. -/
def Json.is_array : Json → Bool
  | .arr _ => true
  | _ => false

/-- The method `json::is_null()`. -/
def Json.is_null : Json → Bool
  | .null => true
  | _ => false

/-- The assignment `j[key] = v` through `json::operator[](key)`: a null value
first becomes an empty object; an object gets the member set; every other
type throws `type_error` 305. -/
def Json.setKey (j : Json) (k : Str) (v : Json) : Except Exn Json :=
  match j with
  | .null => .ok (.obj (objSet k v []))
  | .obj ms => .ok (.obj (objSet k v ms))
  | other => .error (.type_error 305
      ("[json.exception.type_error.305] cannot use operator[] with a string argument with ".toList
        ++ other.type_name))

/-- The member `j[key]` of an object that holds the key (null otherwise, the
value `operator[]` would insert). -/
def Json.getKey (j : Json) (k : Str) : Json :=
  match j with
  | .obj ms => (objFind k ms).getD .null
  | _ => .null

/-- The method `json::erase(key)` on an object. -/
def Json.erase (j : Json) (k : Str) : Except Exn Json :=
  match j with
  | .obj ms => .ok (.obj (objErase k ms))
  | other => .error (.type_error 307
      ("[json.exception.type_error.307] cannot use erase() with ".toList ++ other.type_name))

/-- The conversion `std::string key = j;`: the text of a string value, else
`type_error` 302. -/
def Json.toStdString (j : Json) : Except Exn Str :=
  match j with
  | .str s => .ok s
  | other => .error (.type_error 302
      ("[json.exception.type_error.302] type must be string, but is ".toList ++ other.type_name))

/-- Number of values of `size_t` (64 bits). -/
def SIZE_MOD : Nat := 18446744073709551616

/-- The bound `std::vector<json>::max_size()`: `PTRDIFF_MAX / sizeof(json)` with a 16-byte `json`. -/
def vectorMaxSize : Nat := 9223372036854775807 / 16

/-- The call `resize(n)` on the elements of an array, as `std::vector::resize`:
keeps the first `n` elements and pads with null; throws `length_error`
beyond `max_size()`.  Exhaustion of memory below that bound is not modelled. -/
def vecResize (items : List Json) (n : Nat) : Except Exn (List Json) :=
  if vectorMaxSize < n then .error (.length_error "vector::_M_default_append".toList)
  else .ok (items.take n ++ List.replicate (n - items.length) Json.null)

/-! ## `ParseValue` -/

/-- The function `ParseValue` (lines 69-93). -/
def ParseValue (str : Str) : Json :=
  if str = [] then .null
  else if str = "true".toList ∨ str = "TRUE".toList then .bool true
  else if str = "false".toList ∨ str = "FALSE".toList then .bool false
  else
    let viaDouble : Json :=
      match stod str with
      | .ok (val, pos) => if pos = str.length then .float val else .str str
      | .error _ => .str str
    match stoi str with
    | .ok (val, pos) => if pos = str.length then .int val else viaDouble
    | .error _ => viaDouble

/-! ## `SetNestedValue` -/

/-- Lines 120-125 (and 145-146): `std::stoi(k)` decides whether the segment
is an array index; the `int` it returns is converted to `size_t`. -/
def arrayIndex (k : Str) : Option Nat :=
  match stoi k with
  | .ok (v, _) => some (v % (SIZE_MOD : Int)).toNat
  | .error _ => none

/-- Lines 132-133 and 150-151: the cursor is made an array (replaced by an
empty one when it is anything else) and grown so that `index` fits.  Returns
its elements.  `index + 1` is computed in `size_t`. -/
def ensureArray (cur : Json) (index : Nat) : Except Exn (List Json) :=
  let items : List Json := match cur with
    | .arr xs => xs
    | _ => []
  if items.length ≤ index then vecResize items ((index + 1) % SIZE_MOD) else .ok items

/-- The loop of `SetNestedValue` (lines 114-167) from segment `i` on: `keys`
is `keys[i..]`, `cur` the value the cursor points at.  Returns the value at
the cursor after the loop; the caller stores it back where the cursor
pointed, which is what assignment through the pointer does. -/
def setPath : List Str → Json → Json → Except Exn Json
  | [], cur, _ => .ok cur
  | [k], cur, value =>
    match arrayIndex k with
    | some index => do
      let items ← ensureArray cur index
      if index < items.length then .ok (.arr (items.set index value))
      else .error .out_of_bounds
    | none => cur.setKey k value
  | k :: nextKey :: rest, cur, value =>
    let nextIsIndex := (arrayIndex nextKey).isSome
    let fresh : Json := if nextIsIndex then .arr [] else .obj []
    match arrayIndex k with
    | some index => do
      let items ← ensureArray cur index
      if index < items.length then
        let child := items.getD index .null
        let child1 := if child.is_null then fresh else child
        let child2 ← setPath (nextKey :: rest) child1 value
        .ok (.arr (items.set index child2))
      else .error .out_of_bounds
    | none => do
      let cur1 ← if cur.contains k then .ok cur else cur.setKey k fresh
      let child2 ← setPath (nextKey :: rest) (cur1.getKey k) value
      cur1.setKey k child2

/-- The function `SetNestedValue` (lines 100-168): the new value of `j`. -/
def SetNestedValue (j : Json) (key : Str) (value : Json) : Except Exn Json :=
  setPath (getlines dot key) j value

/-! ## `main` -/

/-- Decimal digits of `n` put before `acc`; `fuel` bounds their number. -/
def toDigitsAux : Nat → Nat → Str → Str
  | 0, _, acc => acc
  | fuel + 1, n, acc =>
    if n < 10 then Char.ofNat (48 + n) :: acc
    else toDigitsAux fuel (n / 10) (Char.ofNat (48 + n % 10) :: acc)

/-- The function `std::to_string` on an unsigned value (here `size_t`). -/
def to_string (n : Nat) : Str := toDigitsAux (n + 1) n []

/-- The input path fixed on line 182. -/
def csvPath : Str := "export.csv".toList

/-- The output path fixed on line 183. -/
def jsonPath : Str := "export.json".toList

/-- The inner loop of `main` (lines 207-213) from column `j` on: `headers` is
`headers[j..]`. -/
def fillRecord (row : List Str) : List Str → Nat → Json → Except Exn Json
  | [], _, obj => .ok obj
  | header :: hs, j, obj => do
    let rawValue : Str := if j < row.length then row.getD j [] else []
    let obj1 ← SetNestedValue obj header (ParseValue rawValue)
    fillRecord row hs (j + 1) obj1

/-- Lines 203-213: the record built from one data row. -/
def buildRecord (headers : List Str) (row : List Str) : Except Exn Json :=
  fillRecord row headers 0 (.obj [])

/-- The key `"name"` of lines 216-220. -/
def nameKey : Str := "name".toList

/-- The message of the exception thrown on line 217 at loop index `i`. -/
def missingNameMessage (i : Nat) : Str :=
  "行 ".toList ++ to_string (i + 1) ++ ": name カラムが空です".toList

/-- The outer loop of `main` (lines 201-222) from index `i` on: `rows` is
`rows[i..]`. -/
def processRows (headers : List Str) : List (List Str) → Nat → Json → Except Exn Json
  | [], _, result => .ok result
  | row :: rest, i, result => do
    let obj ← buildRecord headers row
    if obj.contains nameKey then
      let key ← (obj.getKey nameKey).toStdString
      let obj1 ← obj.erase nameKey
      let result1 ← result.setKey key obj1
      processRows headers rest (i + 1) result1
    else .error (.runtime_error (missingNameMessage i))

/-- What a run of `main` leaves behind. -/
inductive Outcome where
  /-- The process ended with the exit status `code`, having written `cerr`
  to the error stream and `cout` to standard output; `written` is the
  document whose `dump(2)` was written to `export.json`, `none` when that
  file was not opened. -/
  | exited (code : Nat) (cerr : Str) (cout : Str) (written : Option Json)
  /-- The run reached undefined behaviour. -/
  | undefined
  deriving Repr

/-- The handler on lines 230-234. -/
def caught (e : Exn) : Outcome :=
  match e with
  | .out_of_bounds => .undefined
  | ex => .exited 1 ("エラー: ".toList ++ ex.what ++ [newline]) [] none

/-- Lines 186-222: the result document, or `none` for the early return on
line 190. -/
def convert (file : Option Str) : Except Exn (Option Json) := do
  let rows ← ReadCsv csvPath file
  if rows.length < 2 then .ok none
  else
    let headers := rows.headD []
    let result0 ← Json.null.setKey "Name".toList (.str "Address".toList)
    let result1 ← result0.setKey "Version".toList (.str "1.0".toList)
    let result ← processRows headers rows.tail 1 result1
    .ok (some result)

/-- The function `main` (lines 177-235).  `file` is the content of `export.csv`, `none`
when it cannot be opened; `export.json` is taken to be writable, and
`dump(2)` to succeed (the text is valid UTF-8).  The run with the
serialisation step and the output file as explicit state is `mainRun`. -/
def main (file : Option Str) : Outcome :=
  match convert file with
  | .error e => caught e
  | .ok none => .exited 1 ("CSV にデータがありません".toList ++ [newline]) [] none
  | .ok (some result) =>
    .exited 0 [] ("JSON を出力しました: ".toList ++ jsonPath ++ [newline]) (some result)

/-! ## `main` with the output file as explicit state -/

/-- The file `export.json` after a run: not opened, so left as it was, or
opened by line 225, which truncates it, and holding the text written to it
since. -/
inductive OutputFile where
  | untouched
  | holds (content : Str)
  deriving DecidableEq, Repr

/-- What a run of `main` leaves behind when the output file is explicit
state: the exit status, the texts written to the error stream and to
standard output, and the output file; or undefined behaviour. -/
inductive Run where
  | exited (code : Nat) (cerr : Str) (cout : Str) (output : OutputFile)
  | undefined
  deriving DecidableEq, Repr

/-- The handler on lines 230-234, reached with the output file in the given
state. -/
def caughtRun (e : Exn) (output : OutputFile) : Run :=
  match e with
  | .out_of_bounds => .undefined
  | ex => .exited 1 ("エラー: ".toList ++ ex.what ++ [newline]) [] output

/-- The function `main` (lines 177-235) with lines 225-228 in full and the
output file as explicit state.  `dump` is `result.dump(2)` of the JSON
library: the serialised text, or the exception it throws (`type_error` 316
when a string of the document is not valid UTF-8).  Line 225 opens
`export.json`, which truncates it, before line 226 evaluates `dump`; an
exception from `dump` therefore reaches the handler with the file open and
empty.  On success the file holds the text followed by the line break of
`std::endl`.  The file `export.json` is taken to be writable. -/
def mainRun (dump : Json → Except Exn Str) (file : Option Str) : Run :=
  match convert file with
  | .error e => caughtRun e .untouched
  | .ok none => .exited 1 ("CSV にデータがありません".toList ++ [newline]) [] .untouched
  | .ok (some result) =>
    match dump result with
    | .error e => caughtRun e (.holds [])
    | .ok text =>
      .exited 0 [] ("JSON を出力しました: ".toList ++ jsonPath ++ [newline])
        (.holds (text ++ [newline]))

/-! ## Definitions used in the statements -/

/-- The result document as lines 196-198 leave it. -/
def initialResult : List (Str × Json) :=
  [("Name".toList, .str "Address".toList), ("Version".toList, .str "1.0".toList)]

/-- The text `main` prints on success (line 228). -/
def successMessage : Str := "JSON を出力しました: ".toList ++ jsonPath ++ [newline]

/-- A data row has a usable name: its record is an object holding a string
under `name`. -/
def HasName (headers : List Str) (row : List Str) : Prop :=
  ∃ ms s, buildRecord headers row = .ok (.obj ms) ∧ objFind nameKey ms = some (.str s)

/-- The data row's record is an object holding the string `s` under `name`. -/
def Named (headers : List Str) (row : List Str) (s : Str) : Prop :=
  ∃ ms, buildRecord headers row = .ok (.obj ms) ∧ objFind nameKey ms = some (.str s)

/-- The integer a text denotes when it is, in its entirety, a signed decimal
integer literal: an optional sign (`-` is code 45, `+` code 43) followed by
one or more decimal digits and nothing else; `none` for any other text. -/
def signedDecimal : Str → Option Int
  | [] => none
  | c :: cs =>
    if c.toNat = 45 then
      (if cs ≠ [] ∧ cs.all isdigit then some (-(digitsVal 10 cs : Int)) else none)
    else if c.toNat = 43 then
      (if cs ≠ [] ∧ cs.all isdigit then some (digitsVal 10 cs : Int) else none)
    else if (c :: cs).all isdigit then some (digitsVal 10 (c :: cs) : Int)
    else none

/-- The function `std::to_string` on an `int`: the decimal numeral. -/
def int_to_string (n : Int) : Str :=
  if n < 0 then Char.ofNat 45 :: to_string n.natAbs else to_string n.natAbs

/-- The canonical string form of a value `ParseValue` produces: the empty
string for null, `true`/`false` for a boolean, the decimal numeral for an
integer, the text itself for a string.  (None is given for a float.) -/
def canonical : Json → Option Str
  | .null => some []
  | .bool true => some "true".toList
  | .bool false => some "false".toList
  | .int n => some (int_to_string n)
  | .str s => some s
  | _ => none

/-- The segments joined with dots. -/
def joinDots : List Str → Str
  | [] => []
  | [s] => s
  | s :: t :: rest => s ++ dot :: joinDots (t :: rest)

/-- A plain non-negative decimal index: one or more decimal digits. -/
def plainIndex (k : Str) : Bool := !k.isEmpty && k.all isdigit

/-- The document claim C10 expects for the segments and the value:
`expected [] v = v`; for a key `k` the one-entry object holding
`expected rest v` under `k`; for an index `i` the array of `i` nulls
followed by `expected rest v`. -/
def expected : List Str → Json → Json
  | [], v => v
  | k :: rest, v =>
    if plainIndex k then .arr (List.replicate (digitsVal 10 k) .null ++ [expected rest v])
    else .obj [(k, expected rest v)]

/-- A segment as claim C10 (amended) admits it: non-empty, without a dot, and
either a plain decimal index no greater than `INT_MAX` or a key that
`std::stoi` rejects. -/
def SegmentOK (k : Str) : Prop :=
  k ≠ [] ∧ dot ∉ k
    ∧ ((plainIndex k = true ∧ (digitsVal 10 k : Int) ≤ INT_MAX)
        ∨ (plainIndex k = false ∧ arrayIndex k = none))

/-- Whether a top-level key of the result document is a record's key, i.e.
neither of the fixed fields `Name` and `Version`. -/
def isRecordKey (k : Str) : Bool := k != "Name".toList && k != "Version".toList

/-- The number of records of a result document: its top-level entries other
than the fixed `Name` and `Version` fields. -/
def recordCount (res : List (Str × Json)) : Nat :=
  (res.filter (fun m => isRecordKey m.1)).length

/-- A data row truncated to, or padded with empty strings up to, length `n`. -/
def zipRow (n : Nat) (r : List Str) : List Str := r.take n ++ List.replicate (n - r.length) []

/-- The text `main` prints to the error stream when there are fewer than two
rows (line 189). -/
def emptyInputMessage : Str := "CSV にデータがありません".toList ++ [newline]

/-! ## `openUtf8FileSkipBom` (`src/Cpp/openUtf8FileSkipBom.cpp`) -/

/-- A `std::ifstream` opened in binary mode on a file: the bytes of the file,
the read position, whether `failbit` is set, and the count of the last
unformatted read. -/
structure IfStream where
  bytes : List Nat
  pos : Nat
  failed : Bool
  gcount : Nat
  deriving DecidableEq, Repr

/-- The call `ifs.read(buf, n)`: the bytes stored in the buffer and the stream
afterwards.  A stream that has failed reads nothing; a read that meets the
end of the file before `n` bytes sets `failbit` (and `eofbit`). -/
def IfStream.read (s : IfStream) (n : Nat) : List Nat × IfStream :=
  if s.failed then ([], { s with gcount := 0 })
  else
    let got := (s.bytes.drop s.pos).take n
    (got, { s with pos := s.pos + got.length, failed := decide (got.length < n),
                   gcount := got.length })

/-- The call `ifs.clear()`: resets the state flags. -/
def IfStream.clear (s : IfStream) : IfStream := { s with failed := false }

/-- The call `ifs.seekg(p)`: moves the read position unless `failbit` is set. -/
def IfStream.seekg (s : IfStream) (p : Nat) : IfStream :=
  if s.failed then s else { s with pos := p }

/-- The bytes that remain to be read from the stream. -/
def IfStream.remaining (s : IfStream) : List Nat :=
  if s.failed then [] else s.bytes.drop s.pos

/-- The function `openUtf8FileSkipBom` (lines 6-28).  The file at `path` is
`none` when it cannot be opened, else `some bytes`.  The buffer `bom` starts
as three zero bytes and receives the bytes read. -/
def openUtf8FileSkipBom (path : Str) (file : Option (List Nat)) : Except Exn IfStream :=
  match file with
  | none => .error (.runtime_error ("ファイルを開けません: ".toList ++ path))
  | some bytes =>
    let ifs : IfStream := { bytes := bytes, pos := 0, failed := false, gcount := 0 }
    let (got, ifs1) := ifs.read 3
    let bom : List Nat := got ++ List.replicate (3 - got.length) 0
    if ifs1.gcount = 3 then
      if !(bom.getD 0 0 = 239 && bom.getD 1 0 = 187 && bom.getD 2 0 = 191) then
        .ok (ifs1.seekg 0)
      else .ok ifs1
    else .ok ((ifs1.clear).seekg 0)

/-! ## Further definitions used in the statements -/

/-- The maximal comma-free pieces of a line, in order. -/
def commaPieces : Str → List Str
  | [] => [[]]
  | c :: cs =>
    if c = comma then [] :: commaPieces cs
    else
      match commaPieces cs with
      | [] => [[c]]
      | p :: ps => (c :: p) :: ps

/-- The pieces joined with commas. -/
def joinCommas : List Str → Str
  | [] => []
  | [p] => p
  | p :: q :: ps => p ++ comma :: joinCommas (q :: ps)

/-! ## Lemmas: `std::getline` -/

theorem getlineAux_no_delim (delim : Char) (s : Str) (h : delim ∉ s) (tok rest : Str) :
    getlineAux delim (s ++ delim :: rest) tok = (tok ++ s) :: getlineAux delim rest [] := by
  induction s generalizing tok with
  | nil => simp [getlineAux]
  | cons c cs ih =>
    have hc : c ≠ delim := fun e => h (by simp [e])
    have hcs : delim ∉ cs := fun e => h (by simp [e])
    simp [getlineAux, hc, ih hcs]

theorem getlines_single (delim : Char) (s : Str) (h : delim ∉ s) :
    getlines delim (s ++ [delim]) = [s] := by
  simp [getlines, getlineAux_no_delim delim s h, getlineAux]

/-! ## Lemmas: the line parser of `ReadCsv` -/

theorem dquote_ne_comma : dquote ≠ comma := by decide

theorem parseLineAux_plain (c : Char) (rest : Str) (q : Bool) (cell : Str) (row : List Str)
    (h1 : c ≠ dquote) (h2 : c ≠ comma ∨ q = true) :
    parseLineAux (c :: rest) q cell row = parseLineAux rest q (cell ++ [c]) row := by
  cases rest <;> rcases h2 with h2 | h2 <;> simp [parseLineAux, h1, h2]

theorem parseLineAux_escaped (rest : Str) (cell : Str) (row : List Str) :
    parseLineAux (dquote :: dquote :: rest) true cell row
      = parseLineAux rest true (cell ++ [dquote]) row := by
  simp [parseLineAux]

theorem parseLineAux_toggle (rest : Str) (q : Bool) (cell : Str) (row : List Str)
    (h : q = false ∨ rest.head? ≠ some dquote) :
    parseLineAux (dquote :: rest) q cell row = parseLineAux rest (!q) cell row := by
  cases rest with
  | nil => simp [parseLineAux]
  | cons c2 r =>
    rcases h with h | h
    · simp [parseLineAux, h]
    · have : c2 ≠ dquote := fun e => h (by simp [e])
      simp [parseLineAux, this]

theorem parseLineAux_comma (rest : Str) (cell : Str) (row : List Str) :
    parseLineAux (comma :: rest) false cell row = parseLineAux rest false [] (row ++ [cell]) := by
  have h : comma ≠ dquote := by decide
  cases rest <;> simp [parseLineAux, h]

theorem parseLineAux_escapeCell (cell tail acc : Str) (row : List Str)
    (h : tail.head? ≠ some dquote) :
    parseLineAux (escapeCell cell ++ dquote :: tail) true acc row
      = parseLineAux tail false (acc ++ cell) row := by
  induction cell generalizing acc with
  | nil => simpa [escapeCell] using parseLineAux_toggle tail true acc row (Or.inr h)
  | cons c cs ih =>
    by_cases hc : c = dquote
    · subst hc
      simp only [escapeCell, if_true, List.cons_append]
      rw [parseLineAux_escaped, ih]
      simp
    · simp only [escapeCell, hc, if_false, List.cons_append]
      rw [parseLineAux_plain _ _ _ _ _ hc (Or.inr rfl), ih]
      simp

theorem parseLineAux_quoteCell (cell tail : Str) (row : List Str)
    (h : tail.head? ≠ some dquote) :
    parseLineAux (quoteCell cell ++ tail) false [] row = parseLineAux tail false cell row := by
  simp only [quoteCell, List.cons_append, List.append_assoc, List.singleton_append]
  rw [parseLineAux_toggle _ _ _ _ (Or.inl rfl)]
  simpa using parseLineAux_escapeCell cell tail [] row h

theorem parseLineAux_csvLine (cells : List Str) (hne : cells ≠ []) (row : List Str) :
    parseLineAux (csvLine cells) false [] row = row ++ cells := by
  induction cells generalizing row with
  | nil => exact absurd rfl hne
  | cons c cs ih =>
    cases cs with
    | nil =>
      have := parseLineAux_quoteCell c [] row (by simp)
      simpa [csvLine, parseLineAux] using this
    | cons c2 cs2 =>
      have hq := parseLineAux_quoteCell c (comma :: csvLine (c2 :: cs2)) row
        (by simpa using dquote_ne_comma.symm)
      simp only [csvLine]
      rw [hq, parseLineAux_comma, ih (by simp)]
      simp

theorem newline_not_mem_escapeCell (cell : Str) (h : newline ∉ cell) :
    newline ∉ escapeCell cell := by
  induction cell with
  | nil => simp [escapeCell]
  | cons c cs ih =>
    have hc : newline ≠ c := fun e => h (by simp [e])
    have hcs : newline ∉ cs := fun e => h (by simp [e])
    have hd : newline ≠ dquote := by decide
    by_cases hq : c = dquote <;> simp [escapeCell, hq, hc, hd, ih hcs]

theorem newline_not_mem_csvLine (cells : List Str) (h : ∀ c ∈ cells, newline ∉ c) :
    newline ∉ csvLine cells := by
  have hd : newline ≠ dquote := by decide
  have hk : newline ≠ comma := by decide
  induction cells with
  | nil => simp [csvLine]
  | cons c cs ih =>
    have hc := newline_not_mem_escapeCell c (h c (by simp))
    have hcs := ih (fun x hx => h x (by simp [hx]))
    cases cs with
    | nil => simp [csvLine, quoteCell, hd, hc]
    | cons c2 cs2 => simp [csvLine, quoteCell, hd, hk, hc, hcs]

/-! ## Claim C1 -/

/-- C1: CSV quoting round trip.  For every non-empty list of cells without a
line break, the line made of the cells wrapped in double quotes (inner
quotes doubled) and joined by commas is parsed back to exactly these cells
by the line parser, and `ReadCsv` on a file holding that one line returns
that one row. -/
theorem C1_quoted_round_trip (cells : List Str) (hne : cells ≠ [])
    (hnl : ∀ c ∈ cells, newline ∉ c) (path : Str) :
    parseLine (csvLine cells) = cells
      ∧ ReadCsv path (some (csvLine cells ++ [newline])) = .ok [cells] := by
  have h1 : parseLine (csvLine cells) = cells := by
    simpa [parseLine] using parseLineAux_csvLine cells hne []
  refine ⟨h1, ?_⟩
  simp [ReadCsv, getlines_single newline _ (newline_not_mem_csvLine cells hnl), h1]

/-- C1 at the two cells of the specification, `hello, world` and `say "hi"`:
their quoted forms are the lines of the specification and parse back to them. -/
theorem C1_quoted_round_trip_witness :
    csvLine ["hello, world".toList] = dquote :: "hello, world".toList ++ [dquote]
      ∧ parseLine (csvLine ["hello, world".toList]) = ["hello, world".toList]
      ∧ csvLine ["say ".toList ++ [dquote] ++ "hi".toList ++ [dquote]]
          = dquote :: "say ".toList ++ [dquote, dquote] ++ "hi".toList ++ [dquote, dquote, dquote]
      ∧ parseLine (csvLine ["say ".toList ++ [dquote] ++ "hi".toList ++ [dquote]])
          = ["say ".toList ++ [dquote] ++ "hi".toList ++ [dquote]]
      ∧ ReadCsv csvPath (some (csvLine ["hello, world".toList,
          "say ".toList ++ [dquote] ++ "hi".toList ++ [dquote]] ++ [newline]))
        = .ok [["hello, world".toList, "say ".toList ++ [dquote] ++ "hi".toList ++ [dquote]]] :=
  ⟨by decide,
   (C1_quoted_round_trip ["hello, world".toList] (by decide) (by decide) csvPath).1,
   by decide,
   (C1_quoted_round_trip ["say ".toList ++ [dquote] ++ "hi".toList ++ [dquote]]
      (by decide) (by decide) csvPath).1,
   (C1_quoted_round_trip ["hello, world".toList, "say ".toList ++ [dquote] ++ "hi".toList ++ [dquote]]
      (by decide) (by decide) csvPath).2⟩

/-! ## Lemmas: object members -/

theorem objFind_objSet_self (k : Str) (v : Json) (ms : List (Str × Json)) :
    objFind k (objSet k v ms) = some v := by
  induction ms with
  | nil => simp [objSet, objFind]
  | cons m ms ih =>
    obtain ⟨k0, v0⟩ := m
    by_cases h : k0 = k
    · simp [objSet, objFind, h]
    · by_cases hlt : strLt k k0 = true
      · simp [objSet, objFind, h, hlt]
      · simp [objSet, objFind, h, hlt, ih]

theorem objFind_objSet_other (k k1 : Str) (v : Json) (ms : List (Str × Json)) (hne : k ≠ k1) :
    objFind k1 (objSet k v ms) = objFind k1 ms := by
  induction ms with
  | nil => simp [objSet, objFind, hne]
  | cons m ms ih =>
    obtain ⟨k0, v0⟩ := m
    by_cases h : k0 = k
    · subst h
      simp [objSet, objFind, hne]
    · by_cases hlt : strLt k k0 = true
      · simp [objSet, objFind, h, hlt, hne]
      · by_cases h1 : k0 = k1
        · subst h1
          simp [objSet, objFind, h, hlt]
        · simp [objSet, objFind, h, hlt, h1, ih]

theorem objFind_objErase_other (k k1 : Str) (ms : List (Str × Json)) (hne : k ≠ k1) :
    objFind k1 (objErase k ms) = objFind k1 ms := by
  induction ms with
  | nil => simp [objErase, objFind]
  | cons m ms ih =>
    obtain ⟨k0, v0⟩ := m
    by_cases h : k0 = k
    · subst h
      simp [objErase, objFind, hne, ih]
    · by_cases h1 : k0 = k1
      · subst h1
        simp [objErase, objFind, h]
      · simp [objErase, objFind, h, h1, ih]

/-! ## Lemmas: the row loop of `main` -/

theorem processRows_step (headers : List Str) (row : List Str) (rest : List (List Str))
    (i : Nat) (res ms : List (Str × Json)) (s : Str)
    (hb : buildRecord headers row = .ok (.obj ms))
    (hn : objFind nameKey ms = some (.str s)) :
    processRows headers (row :: rest) i (.obj res)
      = processRows headers rest (i + 1)
          (.obj (objSet s (.obj (objErase nameKey ms)) res)) := by
  simp [processRows, hb, bind, Except.bind, Json.contains, hn, Json.getKey,
    Json.toStdString, Json.erase, Json.setKey]

theorem processRows_inv (headers : List Str) (row : List Str) (rest : List (List Str))
    (i : Nat) (res : List (Str × Json)) (out : Json)
    (h : processRows headers (row :: rest) i (.obj res) = .ok out) :
    ∃ ms s, buildRecord headers row = .ok (.obj ms)
      ∧ objFind nameKey ms = some (.str s) := by
  cases hb : buildRecord headers row with
  | error e => simp [processRows, hb, bind, Except.bind] at h
  | ok obj =>
    cases obj with
    | obj ms =>
      cases hn : objFind nameKey ms with
      | none => simp [processRows, hb, bind, Except.bind, Json.contains, hn] at h
      | some v =>
        cases v with
        | str s => exact ⟨ms, s, rfl, hn⟩
        | _ =>
          simp [processRows, hb, bind, Except.bind, Json.contains, hn, Json.getKey,
            Json.toStdString] at h
    | _ => simp [processRows, hb, bind, Except.bind, Json.contains] at h

theorem processRows_ok_hasName (headers : List Str) (data : List (List Str)) :
    ∀ (i : Nat) (res : List (Str × Json)) (out : Json),
      processRows headers data i (.obj res) = .ok out → ∀ r ∈ data, HasName headers r := by
  induction data with
  | nil => intro i res out _ r hr; simp at hr
  | cons row rest ih =>
    intro i res out h r hr
    obtain ⟨ms, s, hb, hn⟩ := processRows_inv headers row rest i res out h
    rw [processRows_step headers row rest i res ms s hb hn] at h
    rcases List.mem_cons.mp hr with e | hr1
    · subst e; exact ⟨ms, s, hb, hn⟩
    · exact ih _ _ _ h r hr1

theorem processRows_spec (headers : List Str) (data : List (List Str)) :
    ∀ (i : Nat) (res : List (Str × Json)), (∀ r ∈ data, HasName headers r) →
      ∃ res1, processRows headers data i (.obj res) = .ok (.obj res1)
        ∧ (∀ k, (∀ r ∈ data, ¬ Named headers r k) → objFind k res1 = objFind k res)
        ∧ (∀ pre r post ms s, data = pre ++ r :: post →
            buildRecord headers r = .ok (.obj ms) →
            objFind nameKey ms = some (.str s) →
            (∀ r1 ∈ post, ¬ Named headers r1 s) →
            objFind s res1 = some (.obj (objErase nameKey ms))) := by
  induction data with
  | nil =>
    intro i res _
    refine ⟨res, by simp [processRows], fun _ _ => rfl, ?_⟩
    intro pre r post ms s hd
    simp at hd
  | cons row rest ih =>
    intro i res hall
    obtain ⟨ms0, s0, hb0, hn0⟩ := hall row (by simp)
    obtain ⟨res1, hp, hframe, hlast⟩ :=
      ih (i + 1) (objSet s0 (.obj (objErase nameKey ms0)) res)
        (fun r hr => hall r (by simp [hr]))
    refine ⟨res1, ?_, ?_, ?_⟩
    · rw [processRows_step headers row rest i res ms0 s0 hb0 hn0]; exact hp
    · intro k hk
      have hne : s0 ≠ k := by
        intro e
        exact hk row (by simp) ⟨ms0, hb0, e ▸ hn0⟩
      rw [hframe k (fun r hr => hk r (by simp [hr])), objFind_objSet_other _ _ _ _ hne]
    · intro pre r post ms s hd hb hn hpost
      cases pre with
      | nil =>
        simp only [List.nil_append, List.cons.injEq] at hd
        obtain ⟨e1, e2⟩ := hd
        subst e1 e2
        rw [hb0] at hb
        simp only [Except.ok.injEq, Json.obj.injEq] at hb
        subst hb
        rw [hn0] at hn
        simp only [Option.some.injEq, Json.str.injEq] at hn
        subst hn
        rw [hframe s0 hpost, objFind_objSet_self]
      | cons p pre1 =>
        simp only [List.cons_append, List.cons.injEq] at hd
        exact hlast pre1 r post ms s hd.2 hb hn hpost

theorem convert_some (text : Str) :
    convert (some text)
      = (if ((getlines newline text).map parseLine).length < 2 then .ok none
         else (processRows (((getlines newline text).map parseLine).headD [])
                ((getlines newline text).map parseLine).tail 1 (.obj initialResult)).map some) := by
  have h0 : Json.null.setKey "Name".toList (.str "Address".toList)
      = .ok (.obj [("Name".toList, .str "Address".toList)]) := by rfl
  have h1 : (Json.obj [("Name".toList, .str "Address".toList)]).setKey "Version".toList
      (.str "1.0".toList) = .ok (.obj initialResult) := by rfl
  simp only [convert, ReadCsv, bind, Except.bind, h0, h1]
  split
  · rfl
  · cases processRows _ _ 1 (.obj initialResult) <;> rfl

theorem caught_written (e : Exn) (code : Nat) (err out : Str) (result : Json) :
    caught e ≠ .exited code err out (some result) := by
  cases e <;> simp [caught]

theorem main_of_processRows (text : Str) (result : Json)
    (hlen : 2 ≤ ((getlines newline text).map parseLine).length)
    (hp : processRows (((getlines newline text).map parseLine).headD [])
      ((getlines newline text).map parseLine).tail 1 (.obj initialResult) = .ok result) :
    main (some text) = .exited 0 [] successMessage (some result) := by
  have hlt : ¬ ((getlines newline text).map parseLine).length < 2 := by omega
  simp only [main, convert_some, hlt, if_false, hp, Except.map, successMessage]

theorem main_written (file : Option Str) (code : Nat) (err out : Str) (result : Json)
    (h : main file = .exited code err out (some result)) :
    ∃ text, file = some text
      ∧ 2 ≤ ((getlines newline text).map parseLine).length
      ∧ processRows (((getlines newline text).map parseLine).headD [])
          ((getlines newline text).map parseLine).tail 1 (.obj initialResult) = .ok result
      ∧ code = 0 ∧ err = [] ∧ out = successMessage := by
  cases file with
  | none =>
    exfalso
    have : main none = caught (.runtime_error ("CSV ファイルを開けません: ".toList ++ csvPath)) := by
      simp [main, convert, ReadCsv, bind, Except.bind]
    rw [this] at h
    exact caught_written _ _ _ _ _ h
  | some text =>
    refine ⟨text, rfl, ?_⟩
    by_cases hlt : ((getlines newline text).map parseLine).length < 2
    · simp only [main, convert_some, hlt, if_true] at h
      simp at h
    · cases hp : processRows (((getlines newline text).map parseLine).headD [])
          ((getlines newline text).map parseLine).tail 1 (.obj initialResult) with
      | error e =>
        have : main (some text) = caught e := by
          simp only [main, convert_some, hlt, if_false, hp, Except.map]
        rw [this] at h
        exact absurd h (caught_written _ _ _ _ _)
      | ok r =>
        rw [main_of_processRows text r (by omega) hp] at h
        simp only [Outcome.exited.injEq, Option.some.injEq] at h
        obtain ⟨h1, h2, h3, h4⟩ := h
        exact ⟨by omega, by rw [h4], h1.symm, h2.symm, h3.symm⟩

/-! ## Claim C2 -/

/-- C3, the code at the failing input `name,age` / `,5`: the data row (row 2)
has an empty `name` cell, so its record holds null under `name`;
`contains("name")` on line 216 is true for it, the row-numbered exception of
line 217 is not thrown, and the run ends on the `type_error` 302 of line 219,
whose text names no row.  Nothing is written.  When the header has no `name`
column at all (input `nam` / `bob`) the diagnostic does carry the row number 2. -/
theorem C3_empty_name_cell_diagnostic :
    ReadCsv csvPath (some "name,age\n,5\n".toList)
        = .ok [["name".toList, "age".toList], [[], "5".toList]]
      ∧ buildRecord ["name".toList, "age".toList] [[], "5".toList]
        = .ok (.obj [("age".toList, .int 5), (nameKey, .null)])
      ∧ main (some "name,age\n,5\n".toList)
        = .exited 1 ("エラー: [json.exception.type_error.302] ".toList
            ++ "type must be string, but is null".toList ++ [newline]) [] none
      ∧ missingNameMessage 1 = "行 2: name カラムが空です".toList
      ∧ main (some "nam\nbob\n".toList)
        = .exited 1 ("エラー: ".toList ++ missingNameMessage 1 ++ [newline]) [] none := by
  refine ⟨by rfl, by rfl, by rfl, by rfl, by rfl⟩

/-! ## Claim C4 -/

/-- C4, the claim as stated fails: on the input `name` / `Name` the run
succeeds, and the written document holds the (empty) record of the data row
under `Name`, not the literal `Address`. -/
theorem C4_counterexample :
    main (some "name\nName\n".toList)
        = .exited 0 [] successMessage
            (some (.obj [("Name".toList, .obj []), ("Version".toList, .str "1.0".toList)]))
      ∧ (Json.obj [("Name".toList, .obj []), ("Version".toList, .str "1.0".toList)]).getKey
          "Name".toList = .obj []
      ∧ Json.obj [] ≠ .str "Address".toList := by
  refine ⟨by rfl, by rfl, Json.noConfusion⟩

/-- C4 (amended): for every input on which `main` succeeds, the written
document holds the literal `Address` under `Name` unless a data row's name is
`Name`, and the literal `1.0` under `Version` unless a data row's name is
`Version`. -/
theorem C4_fixed_metadata (file : Option Str) (rows : List (List Str)) (code : Nat)
    (err out : Str) (result : Json)
    (hread : ReadCsv csvPath file = .ok rows)
    (hmain : main file = .exited code err out (some result)) :
    ((∀ r ∈ rows.tail, ¬ Named (rows.headD []) r "Name".toList) →
        result.getKey "Name".toList = .str "Address".toList)
      ∧ ((∀ r ∈ rows.tail, ¬ Named (rows.headD []) r "Version".toList) →
        result.getKey "Version".toList = .str "1.0".toList) := by
  obtain ⟨text, hfile, _, hp, _⟩ := main_written file code err out result hmain
  subst hfile
  simp only [ReadCsv, Except.ok.injEq] at hread
  subst hread
  have hall := processRows_ok_hasName _ _ _ _ _ hp
  obtain ⟨res1, hp1, hframe, _⟩ :=
    processRows_spec (((getlines newline text).map parseLine).headD [])
      ((getlines newline text).map parseLine).tail 1 initialResult hall
  rw [hp1] at hp
  simp only [Except.ok.injEq] at hp
  subst hp
  constructor
  · intro h
    have h1 : objFind "Name".toList initialResult = some (.str "Address".toList) := by rfl
    simp only [Json.getKey, hframe _ h, h1, Option.getD_some]
  · intro h
    have h1 : objFind "Version".toList initialResult = some (.str "1.0".toList) := by rfl
    simp only [Json.getKey, hframe _ h, h1, Option.getD_some]

/-- C4 (amended) at the input `name,age` / `bob,5`: no row is named `Name` or
`Version`, and the document holds both literals. -/
theorem C4_fixed_metadata_witness :
    main (some "name,age\nbob,5\n".toList)
        = .exited 0 [] successMessage
            (some (.obj [("Name".toList, .str "Address".toList),
              ("Version".toList, .str "1.0".toList),
              ("bob".toList, .obj [("age".toList, .int 5)])]))
      ∧ (Json.obj [("Name".toList, .str "Address".toList), ("Version".toList, .str "1.0".toList),
        ("bob".toList, .obj [("age".toList, .int 5)])]).getKey "Name".toList
        = .str "Address".toList
      ∧ (Json.obj [("Name".toList, .str "Address".toList),
          ("Version".toList, .str "1.0".toList),
          ("bob".toList, .obj [("age".toList, .int 5)])]).getKey "Version".toList
        = .str "1.0".toList := by
  have hb : buildRecord (List.headD [["name".toList, "age".toList],
      ["bob".toList, "5".toList]] []) ["bob".toList, "5".toList]
      = .ok (.obj [("age".toList, .int 5), (nameKey, .str "bob".toList)]) := by rfl
  have hn : objFind nameKey [("age".toList, Json.int 5), (nameKey, .str "bob".toList)]
      = some (.str "bob".toList) := by rfl
  have hno : ∀ k : Str, k ≠ "bob".toList →
      ∀ r ∈ List.tail [["name".toList, "age".toList], ["bob".toList, "5".toList]],
        ¬ Named (List.headD [["name".toList, "age".toList],
          ["bob".toList, "5".toList]] []) r k := by
    intro k hk r hr
    simp only [List.tail_cons, List.mem_singleton] at hr
    subst hr
    rintro ⟨ms, hb1, hn1⟩
    rw [hb] at hb1
    simp only [Except.ok.injEq, Json.obj.injEq] at hb1
    subst hb1
    rw [hn] at hn1
    simp only [Option.some.injEq, Json.str.injEq] at hn1
    exact hk hn1.symm
  have h := C4_fixed_metadata (some "name,age\nbob,5\n".toList)
    [["name".toList, "age".toList], ["bob".toList, "5".toList]] 0 [] successMessage
    (.obj [("Name".toList, .str "Address".toList), ("Version".toList, .str "1.0".toList),
      ("bob".toList, .obj [("age".toList, .int 5)])])
    (by rfl) (by rfl)
  exact ⟨by rfl, h.1 (hno _ (by decide)), h.2 (hno _ (by decide))⟩

/-! ## Claim C5 -/

/-- C5, the code at the failing input (path `a.0`, then path `a.b`, on an
empty object): after `a.0` the member `a` is an array; the segment `b` of
`a.b` then addresses it through `operator[]` with a string key (line 138),
which throws `type_error` 305 instead of replacing the array by an object.
The opposite order (`a.b`, then `a.0`) does complete: lines 132 and 150
replace a non-array by an empty array.  In `main` the headers
`name,a.0,a.b` end the run with that error. -/
theorem C5_object_segment_on_array_throws (v w : Json) :
    SetNestedValue (.obj []) "a.0".toList v = .ok (.obj [("a".toList, .arr [v])])
      ∧ SetNestedValue (.obj [("a".toList, .arr [v])]) "a.b".toList w
        = .error (.type_error 305 ("[json.exception.type_error.305] ".toList
            ++ "cannot use operator[] with a string argument with array".toList))
      ∧ SetNestedValue (.obj []) "a.b".toList v
        = .ok (.obj [("a".toList, .obj [("b".toList, v)])])
      ∧ SetNestedValue (.obj [("a".toList, .obj [("b".toList, v)])]) "a.0".toList w
        = .ok (.obj [("a".toList, .arr [w])])
      ∧ main (some "name,a.0,a.b\nbob,1,2\n".toList)
        = .exited 1 ("エラー: [json.exception.type_error.305] ".toList
            ++ "cannot use operator[] with a string argument with array".toList
            ++ [newline]) [] none := by
  refine ⟨by rfl, by rfl, by rfl, by rfl, by rfl⟩

/-! ## Claim C6 -/

/-- C6, the code at the failing inputs `2x` and `-1`: `std::stoi` accepts both
(lines 122-125 test neither the characters left over nor the sign), so both
are classified as array indices.  `2x` is index 2: assigning under it turns
the empty object into a three-element array.  `-1` becomes the `size_t`
`2^64 - 1`, for which `index + 1` wraps to 0 and the element access is out of
bounds.  A segment without a leading number, such as `x2`, is a key. -/
theorem C6_segment_classification (v : Json) :
    arrayIndex "2x".toList = some 2
      ∧ SetNestedValue (.obj []) "2x".toList v = .ok (.arr [.null, .null, v])
      ∧ arrayIndex "-1".toList = some 18446744073709551615
      ∧ SetNestedValue (.obj []) "-1".toList v = .error .out_of_bounds
      ∧ arrayIndex "x2".toList = none
      ∧ SetNestedValue (.obj []) "x2".toList v = .ok (.obj [("x2".toList, v)]) := by
  refine ⟨by rfl, by rfl, by rfl, by rfl, by rfl, by rfl⟩

/-! ## Lemmas: `std::stoi` and `ParseValue` -/

theorem scanSign_length (t : Str) : (scanSign t).2.1 + (scanSign t).2.2.length = t.length := by
  cases t with
  | nil => simp [scanSign]
  | cons c cs =>
    simp only [scanSign]
    split_ifs <;> simp <;> omega

theorem stoi_ok (str : Str) (v : Int) (pos : Nat) (h : stoi str = .ok (v, pos)) :
    (scanSign ((c_str str).dropWhile isspace)).2.2.takeWhile isdigit ≠ []
      ∧ v = (if (scanSign ((c_str str).dropWhile isspace)).1
              then -(digitsVal 10 ((scanSign ((c_str str).dropWhile isspace)).2.2.takeWhile isdigit) : Int)
              else (digitsVal 10 ((scanSign ((c_str str).dropWhile isspace)).2.2.takeWhile isdigit) : Int))
      ∧ INT_MIN ≤ v ∧ v ≤ INT_MAX
      ∧ pos = ((c_str str).takeWhile isspace).length
          + (scanSign ((c_str str).dropWhile isspace)).2.1
          + ((scanSign ((c_str str).dropWhile isspace)).2.2.takeWhile isdigit).length := by
  unfold stoi at h
  simp only at h
  by_cases h1 : (scanSign ((c_str str).dropWhile isspace)).2.2.takeWhile isdigit = []
  · rw [if_pos h1] at h; cases h
  · rw [if_neg h1] at h
    generalize hw : (if (scanSign ((c_str str).dropWhile isspace)).1 = true
      then -(digitsVal 10 ((scanSign ((c_str str).dropWhile isspace)).2.2.takeWhile isdigit) : Int)
      else (digitsVal 10 ((scanSign ((c_str str).dropWhile isspace)).2.2.takeWhile isdigit) : Int)) = w at h
    by_cases h2 : w < INT_MIN ∨ INT_MAX < w
    · rw [if_pos h2] at h; cases h
    · rw [if_neg h2] at h
      simp only [Except.ok.injEq, Prod.mk.injEq] at h
      obtain ⟨hv, hp⟩ := h
      push_neg at h2
      subst hv
      exact ⟨h1, rfl, h2.1, h2.2, hp.symm⟩

theorem stoi_error_of (str : Str)
    (h : (scanSign ((c_str str).dropWhile isspace)).2.2.takeWhile isdigit = []) :
    ∃ e, stoi str = .error e := by
  unfold stoi
  simp only
  rw [if_pos h]
  exact ⟨_, rfl⟩

theorem signedDecimal_of_scanSign (t : Str)
    (hne : (scanSign t).2.2 ≠ []) (hd : ∀ x ∈ (scanSign t).2.2, isdigit x = true) :
    signedDecimal t = some (if (scanSign t).1 then -(digitsVal 10 (scanSign t).2.2 : Int)
      else (digitsVal 10 (scanSign t).2.2 : Int)) := by
  cases t with
  | nil => simp [scanSign] at hne
  | cons c cs =>
    simp only [signedDecimal]
    by_cases h1 : c.toNat = 45
    · simp only [scanSign, if_pos h1] at hne hd ⊢
      rw [if_pos ⟨hne, List.all_eq_true.mpr hd⟩]
      simp
    · by_cases h2 : c.toNat = 43
      · simp only [scanSign, if_neg h1, if_pos h2] at hne hd ⊢
        rw [if_pos ⟨hne, List.all_eq_true.mpr hd⟩]
        simp
      · simp only [scanSign, if_neg h1, if_neg h2] at hne hd ⊢
        rw [if_pos (List.all_eq_true.mpr hd)]
        simp

theorem c_str_initial (s : Str) : c_str s <+: s := List.takeWhile_prefix _

theorem stoi_full (s : Str) (n : Int) (h : stoi s = .ok (n, s.length)) :
    signedDecimal (s.dropWhile isspace) = some n ∧ INT_MIN ≤ n ∧ n ≤ INT_MAX := by
  obtain ⟨_, hv, hlo, hhi, hp⟩ := stoi_ok s n s.length h
  have hc : (c_str s).length ≤ s.length := (c_str_initial s).length_le
  have hsplit : ((c_str s).takeWhile isspace).length + ((c_str s).dropWhile isspace).length
      = (c_str s).length := by
    rw [← List.length_append, List.takeWhile_append_dropWhile]
  have hsign := scanSign_length ((c_str s).dropWhile isspace)
  have hds : ((scanSign ((c_str s).dropWhile isspace)).2.2.takeWhile isdigit).length
      ≤ (scanSign ((c_str s).dropWhile isspace)).2.2.length :=
    (List.takeWhile_prefix _).length_le
  have hcs : c_str s = s := (c_str_initial s).eq_of_length (by omega)
  have hbody : (scanSign ((c_str s).dropWhile isspace)).2.2.takeWhile isdigit
      = (scanSign ((c_str s).dropWhile isspace)).2.2 :=
    (List.takeWhile_prefix _).eq_of_length (by omega)
  rw [hcs] at hv hbody
  rename_i hne
  rw [hcs] at hne
  rw [hbody] at hv hne
  refine ⟨?_, hlo, hhi⟩
  rw [signedDecimal_of_scanSign _ hne (List.takeWhile_eq_self_iff.mp hbody), hv]

theorem ParseValue_int (s : Str) (n : Int) (h : ParseValue s = .int n) :
    stoi s = .ok (n, s.length) := by
  unfold ParseValue at h
  split_ifs at h
  simp only at h
  cases hs : stoi s with
  | error e =>
    rw [hs] at h
    simp only at h
    split at h <;> try split_ifs at h
    all_goals cases h
  | ok r =>
    obtain ⟨v, pos⟩ := r
    rw [hs] at h
    simp only at h
    by_cases hp : pos = s.length
    · rw [if_pos hp] at h
      cases h
      rw [hp]
    · rw [if_neg hp] at h
      split at h <;> try split_ifs at h
      all_goals cases h
/-! ## Claim C7 -/

/-- C7, the claim as stated fails: the text ` 12` (a space, then `12`) is not
in its entirety a signed decimal integer literal, yet `ParseValue` returns
the integer 12 for it: `std::stoi` skips the leading white space and still
reports all three characters as consumed. -/
theorem C7_counterexample :
    ParseValue " 12".toList = .int 12 ∧ signedDecimal " 12".toList = none := by
  refine ⟨by rfl, by rfl⟩

/-- C7 (amended): `ParseValue s` returns `Int n` only if `s`, after its leading
white space, is in its entirety a signed decimal integer literal denoting
`n` (optional sign, digits, nothing after), with `n` a 32-bit integer; and
`12abc` is not coerced to an integer. -/
theorem C7_integer_coercion :
    (∀ (s : Str) (n : Int), ParseValue s = .int n →
        signedDecimal (s.dropWhile isspace) = some n ∧ INT_MIN ≤ n ∧ n ≤ INT_MAX)
      ∧ (∀ n : Int, ParseValue "12abc".toList ≠ .int n) := by
  have h1 : ∀ (s : Str) (n : Int), ParseValue s = .int n →
      signedDecimal (s.dropWhile isspace) = some n ∧ INT_MIN ≤ n ∧ n ≤ INT_MAX :=
    fun s n h => stoi_full s n (ParseValue_int s n h)
  refine ⟨h1, ?_⟩
  intro n h
  have h2 := (h1 _ n h).1
  have h3 : signedDecimal ("12abc".toList.dropWhile isspace) = none := by rfl
  rw [h3] at h2
  cases h2

/-- C7 (amended) at the texts `-42` and ` 12`: both are coerced, and what
follows the white space is the literal of the value returned. -/
theorem C7_integer_coercion_witness :
    (ParseValue "-42".toList = .int (-42) ∧ signedDecimal "-42".toList = some (-42))
      ∧ (ParseValue " 12".toList = .int 12 ∧ signedDecimal "12".toList = some 12) :=
  ⟨⟨by rfl, (C7_integer_coercion.1 "-42".toList (-42) (by rfl)).1⟩,
   ⟨by rfl, (C7_integer_coercion.1 " 12".toList 12 (by rfl)).1⟩⟩

/-! ## Claim C8 -/

theorem toNat_ofNat_small (n : Nat) (h : n < 55296) : (Char.ofNat n).toNat = n := by
  have hv : n.isValidChar := Or.inl h
  unfold Char.ofNat
  rw [dif_pos hv]
  rfl

theorem tolower_eq (c d : Char) (h : tolower c = d) :
    c = d ∨ c = Char.ofNat (d.toNat - 32) := by
  unfold tolower at h
  split at h
  · right
    rename_i hc
    simp only [Bool.and_eq_true, decide_eq_true_eq] at hc
    have h1 : d.toNat = c.toNat + 32 := by
      rw [← h, toNat_ofNat_small _ (by omega)]
    rw [h1, Nat.add_sub_cancel, Char.ofNat_toNat]
  · left; exact h

theorem map_eq_four {f : Char → Char} {s : Str} {w x y z : Char}
    (h : s.map f = [w, x, y, z]) :
    ∃ a b c d, s = [a, b, c, d] ∧ f a = w ∧ f b = x ∧ f c = y ∧ f d = z := by
  simp only [List.map_eq_cons_iff, List.map_eq_nil_iff] at h
  obtain ⟨a, l1, rfl, ha, b, l2, rfl, hb, c, l3, rfl, hc, d, l4, rfl, hd, rfl⟩ := h
  exact ⟨a, b, c, d, rfl, ha, hb, hc, hd⟩

theorem map_eq_five {f : Char → Char} {s : Str} {v w x y z : Char}
    (h : s.map f = [v, w, x, y, z]) :
    ∃ a b c d e, s = [a, b, c, d, e] ∧ f a = v ∧ f b = w ∧ f c = x ∧ f d = y ∧ f e = z := by
  simp only [List.map_eq_cons_iff, List.map_eq_nil_iff] at h
  obtain ⟨a, l1, rfl, ha, b, l2, rfl, hb, c, l3, rfl, hc, d, l4, rfl, hd, e, l5, rfl, he, rfl⟩ := h
  exact ⟨a, b, c, d, e, rfl, ha, hb, hc, hd, he⟩

theorem ParseValue_bool (s : Str) (b : Bool) (h : ParseValue s = .bool b) :
    (b = true ∧ (s = "true".toList ∨ s = "TRUE".toList))
      ∨ (b = false ∧ (s = "false".toList ∨ s = "FALSE".toList)) := by
  unfold ParseValue at h
  by_cases h0 : s = []
  · rw [if_pos h0] at h; cases h
  · rw [if_neg h0] at h
    by_cases h1 : s = "true".toList ∨ s = "TRUE".toList
    · rw [if_pos h1] at h
      cases h
      exact Or.inl ⟨rfl, h1⟩
    · rw [if_neg h1] at h
      by_cases h2 : s = "false".toList ∨ s = "FALSE".toList
      · rw [if_pos h2] at h
        cases h
        exact Or.inr ⟨rfl, h2⟩
      · rw [if_neg h2] at h
        simp only at h
        split at h <;> (try split_ifs at h) <;> (try split at h) <;> (try split_ifs at h)
        all_goals cases h

/-- C8: boolean coercion is an exact match on four spellings.  `ParseValue s`
is `Bool true` exactly for `true` and `TRUE`, `Bool false` exactly for
`false` and `FALSE`; every other casing of the two words is returned as the
string itself. -/
theorem C8_boolean_coercion :
    (∀ s : Str, ParseValue s = .bool true ↔ (s = "true".toList ∨ s = "TRUE".toList))
      ∧ (∀ s : Str, ParseValue s = .bool false ↔ (s = "false".toList ∨ s = "FALSE".toList))
      ∧ (∀ s : Str, (s.map tolower = "true".toList ∨ s.map tolower = "false".toList) →
          s ≠ "true".toList → s ≠ "TRUE".toList → s ≠ "false".toList → s ≠ "FALSE".toList →
          ParseValue s = .str s) := by
  refine ⟨?_, ?_, ?_⟩
  · intro s
    constructor
    · intro h
      rcases ParseValue_bool s true h with ⟨_, h1⟩ | ⟨h1, _⟩
      · exact h1
      · cases h1
    · rintro (h | h) <;> subst h <;> rfl
  · intro s
    constructor
    · intro h
      rcases ParseValue_bool s false h with ⟨h1, _⟩ | ⟨_, h1⟩
      · cases h1
      · exact h1
    · rintro (h | h) <;> subst h <;> rfl
  · intro s hs n1 n2 n3 n4
    rcases hs with hs | hs
    · obtain ⟨a, b, c, d, rfl, ha, hb, hc, hd⟩ := map_eq_four hs
      rcases tolower_eq _ _ ha with rfl | rfl <;> rcases tolower_eq _ _ hb with rfl | rfl <;>
        rcases tolower_eq _ _ hc with rfl | rfl <;> rcases tolower_eq _ _ hd with rfl | rfl <;>
        first
          | rfl
          | exact absurd rfl n1
          | exact absurd rfl n2
    · obtain ⟨a, b, c, d, e, rfl, ha, hb, hc, hd, he⟩ := map_eq_five hs
      rcases tolower_eq _ _ ha with rfl | rfl <;> rcases tolower_eq _ _ hb with rfl | rfl <;>
        rcases tolower_eq _ _ hc with rfl | rfl <;> rcases tolower_eq _ _ hd with rfl | rfl <;>
        rcases tolower_eq _ _ he with rfl | rfl <;>
        first
          | rfl
          | exact absurd rfl n3
          | exact absurd rfl n4

/-- C8 at the casings `True`, `False` and `tRUE`: each is returned as a string. -/
theorem C8_boolean_coercion_witness :
    ParseValue "True".toList = .str "True".toList
      ∧ ParseValue "False".toList = .str "False".toList
      ∧ ParseValue "tRUE".toList = .str "tRUE".toList :=
  ⟨C8_boolean_coercion.2.2 "True".toList (Or.inl (by decide))
      (by decide) (by decide) (by decide) (by decide),
   C8_boolean_coercion.2.2 "False".toList (Or.inr (by decide))
      (by decide) (by decide) (by decide) (by decide),
   C8_boolean_coercion.2.2 "tRUE".toList (Or.inl (by decide))
      (by decide) (by decide) (by decide) (by decide)⟩

/-! ## Claim C9 -/

theorem digit_ofNat (d : Nat) (h : d < 10) :
    isdigit (Char.ofNat (48 + d)) = true ∧ digitVal (Char.ofNat (48 + d)) = d := by
  have ht := toNat_ofNat_small (48 + d) (by omega)
  have h1 : isdigit (Char.ofNat (48 + d)) = true := by
    simp only [isdigit, ht, Bool.and_eq_true, decide_eq_true_eq]
    omega
  refine ⟨h1, ?_⟩
  simp only [digitVal, h1, if_true, ht]
  omega

theorem digitsValFrom_append (base : Nat) (xs ys : Str) (a : Nat) :
    digitsValFrom base (xs ++ ys) a = digitsValFrom base ys (digitsValFrom base xs a) := by
  induction xs generalizing a with
  | nil => rfl
  | cons x xs ih => simp [digitsValFrom, ih]

theorem toDigitsAux_spec (fuel : Nat) : ∀ (n : Nat) (acc : Str), n < fuel →
    ∃ ds, toDigitsAux fuel n acc = ds ++ acc ∧ ds ≠ []
      ∧ (∀ x ∈ ds, isdigit x = true) ∧ digitsVal 10 ds = n := by
  induction fuel with
  | zero => intro n acc h; omega
  | succ fuel ih =>
    intro n acc h
    by_cases hn : n < 10
    · refine ⟨[Char.ofNat (48 + n)], by simp [toDigitsAux, hn], by simp, ?_, ?_⟩
      · intro x hx
        simp only [List.mem_singleton] at hx
        subst hx
        exact (digit_ofNat n hn).1
      · simp [digitsVal, digitsValFrom, (digit_ofNat n hn).2]
    · obtain ⟨ds, h1, h2, h3, h4⟩ := ih (n / 10) (Char.ofNat (48 + n % 10) :: acc) (by omega)
      have hd := digit_ofNat (n % 10) (Nat.mod_lt _ (by norm_num))
      refine ⟨ds ++ [Char.ofNat (48 + n % 10)], by simp [toDigitsAux, hn, h1], by simp, ?_, ?_⟩
      · intro x hx
        rcases List.mem_append.mp hx with hx | hx
        · exact h3 x hx
        · simp only [List.mem_singleton] at hx
          subst hx
          exact hd.1
      · simp only [digitsVal] at h4 ⊢
        rw [digitsValFrom_append, h4]
        simp only [digitsValFrom, hd.2]
        omega

theorem to_string_spec (n : Nat) :
    to_string n ≠ [] ∧ (∀ x ∈ to_string n, isdigit x = true) ∧ digitsVal 10 (to_string n) = n := by
  obtain ⟨ds, h1, h2, h3, h4⟩ := toDigitsAux_spec (n + 1) n [] (by omega)
  simp only [List.append_nil] at h1
  simp only [to_string, h1]
  exact ⟨h2, h3, h4⟩

theorem isdigit_props (x : Char) (h : isdigit x = true) :
    (x != nul) = true ∧ isspace x = false ∧ x.toNat ≠ 45 ∧ x.toNat ≠ 43 := by
  simp only [isdigit, Bool.and_eq_true, decide_eq_true_eq] at h
  refine ⟨?_, ?_, by omega, by omega⟩
  · simp only [bne_iff_ne, ne_eq]
    intro e
    have : x.toNat = 0 := by rw [e]; rfl
    omega
  · simp only [isspace, Bool.or_eq_false_iff, decide_eq_false_iff_not, Bool.and_eq_false_iff]
    omega

theorem takeWhile_all {p : Char → Bool} {l : Str} (h : ∀ x ∈ l, p x = true) :
    l.takeWhile p = l := List.takeWhile_eq_self_iff.mpr h

theorem stoi_signed_digits (neg : Bool) (ds : Str) (hne : ds ≠ [])
    (hd : ∀ x ∈ ds, isdigit x = true)
    (hlo : INT_MIN ≤ (if neg then -(digitsVal 10 ds : Int) else (digitsVal 10 ds : Int)))
    (hhi : (if neg then -(digitsVal 10 ds : Int) else (digitsVal 10 ds : Int)) ≤ INT_MAX) :
    stoi ((if neg then [Char.ofNat 45] else []) ++ ds)
      = .ok ((if neg then -(digitsVal 10 ds : Int) else (digitsVal 10 ds : Int)),
          ((if neg then [Char.ofNat 45] else []) ++ ds).length) := by
  obtain ⟨d, ds1, rfl⟩ := List.exists_cons_of_ne_nil hne
  have hdd := isdigit_props d (hd d (by simp))
  have hnul : ∀ x ∈ d :: ds1, (x != nul) = true := fun x hx => (isdigit_props x (hd x hx)).1
  have htk : (d :: ds1).takeWhile isdigit = d :: ds1 := takeWhile_all hd
  cases neg with
  | false =>
    have hc : c_str (d :: ds1) = d :: ds1 := takeWhile_all hnul
    have hsign : scanSign (d :: ds1) = (false, 0, d :: ds1) := by
      simp [scanSign, hdd.2.2.1, hdd.2.2.2]
    simp only [Bool.false_eq_true, if_false, List.nil_append] at hlo hhi ⊢
    unfold stoi
    simp only [hc, List.takeWhile_cons, List.dropWhile_cons, hdd.2.1, Bool.false_eq_true,
      if_false]
    simp only [hsign, htk]
    have hr : ¬ ((digitsVal 10 (d :: ds1) : Int) < INT_MIN ∨ INT_MAX < (digitsVal 10 (d :: ds1) : Int)) := by
      push_neg; exact ⟨hlo, hhi⟩
    rw [if_neg hne]
    simp only [Bool.false_eq_true, if_false]
    rw [if_neg hr]
    simp
  | true =>
    have hm : ((Char.ofNat 45) != nul) = true := by decide
    have hc : c_str (Char.ofNat 45 :: d :: ds1) = Char.ofNat 45 :: d :: ds1 :=
      takeWhile_all (by
        intro x hx
        rcases List.mem_cons.mp hx with e | hx
        · rw [e]; exact hm
        · exact hnul x hx)
    have hsp : isspace (Char.ofNat 45) = false := by decide
    have hsign : scanSign (Char.ofNat 45 :: d :: ds1) = (true, 1, d :: ds1) := by
      have : (Char.ofNat 45).toNat = 45 := by decide
      simp [scanSign, this]
    simp only [if_true, List.singleton_append] at hlo hhi ⊢
    unfold stoi
    simp only [hc, List.takeWhile_cons, List.dropWhile_cons, hsp, Bool.false_eq_true,
      if_false]
    simp only [hsign, htk]
    have hr : ¬ (-(digitsVal 10 (d :: ds1) : Int) < INT_MIN ∨ INT_MAX < -(digitsVal 10 (d :: ds1) : Int)) := by
      push_neg; exact ⟨hlo, hhi⟩
    rw [if_neg hne]
    simp only [if_true]
    rw [if_neg hr]
    simp
    omega

theorem ParseValue_of_stoi (s : Str) (n : Int) (h : stoi s = .ok (n, s.length)) :
    ParseValue s = .int n := by
  have h0 : s ≠ [] := by
    intro e; subst e
    have : stoi [] = .error (.invalid_argument "stoi".toList) := by rfl
    rw [this] at h; cases h
  have h1 : ¬ (s = "true".toList ∨ s = "TRUE".toList) := by
    rintro (e | e) <;> subst e
    · have : stoi "true".toList = .error (.invalid_argument "stoi".toList) := by rfl
      rw [this] at h; cases h
    · have : stoi "TRUE".toList = .error (.invalid_argument "stoi".toList) := by rfl
      rw [this] at h; cases h
  have h2 : ¬ (s = "false".toList ∨ s = "FALSE".toList) := by
    rintro (e | e) <;> subst e
    · have : stoi "false".toList = .error (.invalid_argument "stoi".toList) := by rfl
      rw [this] at h; cases h
    · have : stoi "FALSE".toList = .error (.invalid_argument "stoi".toList) := by rfl
      rw [this] at h; cases h
  unfold ParseValue
  rw [if_neg h0, if_neg h1, if_neg h2]
  simp only [h, if_true]

theorem ParseValue_int_to_string (n : Int) (hlo : INT_MIN ≤ n) (hhi : n ≤ INT_MAX) :
    ParseValue (int_to_string n) = .int n := by
  obtain ⟨hne, hd, hv⟩ := to_string_spec n.natAbs
  apply ParseValue_of_stoi
  by_cases hneg : n < 0
  · have hn : (if true then -(digitsVal 10 (to_string n.natAbs) : Int)
        else (digitsVal 10 (to_string n.natAbs) : Int)) = n := by
      simp only [if_true, hv]; omega
    have := stoi_signed_digits true (to_string n.natAbs) hne hd (by rw [hn]; exact hlo)
      (by rw [hn]; exact hhi)
    rw [hn] at this
    simpa [int_to_string, hneg] using this
  · have hn : (if false then -(digitsVal 10 (to_string n.natAbs) : Int)
        else (digitsVal 10 (to_string n.natAbs) : Int)) = n := by
      simp only [Bool.false_eq_true, if_false, hv]; omega
    have := stoi_signed_digits false (to_string n.natAbs) hne hd (by rw [hn]; exact hlo)
      (by rw [hn]; exact hhi)
    rw [hn] at this
    simpa [int_to_string, hneg] using this

theorem ParseValue_str (s t : Str) (h : ParseValue s = .str t) : t = s := by
  unfold ParseValue at h
  split_ifs at h
  simp only at h
  split at h <;> (try split_ifs at h) <;> (try split at h) <;> (try split_ifs at h)
  all_goals (cases h; rfl)

/-- C9: coercion idempotence.  Whenever `ParseValue` produces a value with a
canonical string form (null, boolean, integer, string), `ParseValue` of that
form is the value again; for every 32-bit integer `n`, `ParseValue` of the
decimal numeral of `n` is `Int n`; and when `ParseValue s` is `String t`
then `t = s` and `ParseValue t` is `String t`. -/
theorem C9_coercion_idempotence :
    (∀ (s : Str) (v : Json) (t : Str), ParseValue s = v → canonical v = some t →
        ParseValue t = v)
      ∧ (∀ n : Int, INT_MIN ≤ n → n ≤ INT_MAX → ParseValue (int_to_string n) = .int n)
      ∧ (∀ s t : Str, ParseValue s = .str t → t = s ∧ ParseValue t = .str t) := by
  have hstr : ∀ s t : Str, ParseValue s = .str t → t = s ∧ ParseValue t = .str t := by
    intro s t h
    have e := ParseValue_str s t h
    subst e
    exact ⟨rfl, h⟩
  refine ⟨?_, ParseValue_int_to_string, hstr⟩
  intro s v t hv hc
  cases v with
  | null => simp only [canonical, Option.some.injEq] at hc; subst hc; rfl
  | bool b =>
    cases b <;> simp only [canonical, Option.some.injEq] at hc <;> subst hc <;> rfl
  | int n =>
    simp only [canonical, Option.some.injEq] at hc
    subst hc
    have := stoi_full s n (ParseValue_int s n hv)
    exact ParseValue_int_to_string n this.2.1 this.2.2
  | str u =>
    simp only [canonical, Option.some.injEq] at hc
    subst hc
    exact (hstr s _ hv).2
  | float d => simp [canonical] at hc
  | arr xs => simp [canonical] at hc
  | obj ms => simp [canonical] at hc

/-- C9 at `+5` (coerced to the integer 5, whose numeral is `5`), at the least
32-bit integer and at the text `abc`. -/
theorem C9_coercion_idempotence_witness :
    (ParseValue "+5".toList = .int 5 ∧ canonical (.int 5) = some "5".toList
        ∧ ParseValue "5".toList = .int 5)
      ∧ (int_to_string (-2147483648) = "-2147483648".toList
        ∧ ParseValue (int_to_string (-2147483648)) = .int (-2147483648))
      ∧ ParseValue "abc".toList = .str "abc".toList :=
  ⟨⟨by rfl, by rfl, C9_coercion_idempotence.1 "+5".toList (.int 5) "5".toList (by rfl) (by rfl)⟩,
   ⟨by rfl, C9_coercion_idempotence.2.1 (-2147483648) (by decide) (by decide)⟩,
   (C9_coercion_idempotence.2.2 "abc".toList "abc".toList (by rfl)).2⟩

/-! ## Claim C10 -/

theorem getlineAux_last (delim : Char) (s : Str) (h : delim ∉ s) (tok : Str) :
    getlineAux delim s tok = if tok ++ s = [] then [] else [tok ++ s] := by
  induction s generalizing tok with
  | nil => simp [getlineAux]
  | cons c cs ih =>
    have hc : c ≠ delim := fun e => h (by simp [e])
    have hcs : delim ∉ cs := fun e => h (by simp [e])
    simp [getlineAux, hc, ih hcs]

theorem getlines_joinDots (segs : List Str) (h : ∀ k ∈ segs, k ≠ [] ∧ dot ∉ k) :
    getlines dot (joinDots segs) = segs := by
  induction segs with
  | nil => simp [joinDots, getlines, getlineAux]
  | cons s rest ih =>
    obtain ⟨hs1, hs2⟩ := h s (by simp)
    cases rest with
    | nil => simp [joinDots, getlines, getlineAux_last dot s hs2, hs1]
    | cons t rest1 =>
      have := ih (fun k hk => h k (by simp [hk]))
      simp only [getlines] at this
      simp [joinDots, getlines, getlineAux_no_delim dot s hs2, this]

theorem plainIndex_spec (k : Str) (h : plainIndex k = true) :
    k ≠ [] ∧ ∀ x ∈ k, isdigit x = true := by
  simp only [plainIndex, Bool.and_eq_true, Bool.not_eq_true', List.isEmpty_eq_false,
    List.all_eq_true] at h
  exact ⟨by simpa using h.1, h.2⟩

theorem arrayIndex_plain (k : Str) (h : plainIndex k = true)
    (hmax : (digitsVal 10 k : Int) ≤ INT_MAX) : arrayIndex k = some (digitsVal 10 k) := by
  obtain ⟨hne, hd⟩ := plainIndex_spec k h
  have hs := stoi_signed_digits false k hne hd
    (by simp only [Bool.false_eq_true, if_false, INT_MIN]; omega)
    (by simpa using hmax)
  simp only [Bool.false_eq_true, if_false, List.nil_append] at hs
  simp only [arrayIndex, hs, Option.some.injEq]
  simp only [INT_MAX] at hmax
  simp only [SIZE_MOD]
  omega

theorem ensureArray_empty (cur : Json) (index : Nat) (hcur : cur = .obj [] ∨ cur = .arr [])
    (hmax : (index : Int) ≤ INT_MAX) :
    ensureArray cur index = .ok (List.replicate (index + 1) .null) := by
  simp only [INT_MAX] at hmax
  have hm : (index + 1) % SIZE_MOD = index + 1 := Nat.mod_eq_of_lt (by simp only [SIZE_MOD]; omega)
  have hv : ¬ vectorMaxSize < index + 1 := by simp only [vectorMaxSize]; omega
  rcases hcur with rfl | rfl <;> simp [ensureArray, vecResize, hm, hv]

theorem replicate_set_last (n : Nat) (a v : Json) :
    (List.replicate (n + 1) a).set n v = List.replicate n a ++ [v] := by
  induction n with
  | zero => rfl
  | succ n ih => simp [List.replicate_succ, ih] at *

theorem replicate_getD (n m : Nat) (a : Json) : (List.replicate n a).getD m a = a := by
  simp [List.getD_eq_getElem?_getD, List.getElem?_replicate]
  split <;> rfl

theorem setPath_fresh (v : Json) (segs : List Str) :
    ∀ cur : Json, segs ≠ [] → (∀ k ∈ segs, SegmentOK k) →
      (cur = .obj [] ∨ (cur = .arr [] ∧ ∃ k rest, segs = k :: rest ∧ plainIndex k = true)) →
      setPath segs cur v = .ok (expected segs v) := by
  induction segs with
  | nil => intro cur h; exact absurd rfl h
  | cons k rest ih =>
    intro cur _ hok hcur
    obtain ⟨_, _, hk⟩ := hok k (by simp)
    have hcur2 : cur = .obj [] ∨ cur = .arr [] := by
      rcases hcur with h | h
      · exact Or.inl h
      · exact Or.inr h.1
    cases rest with
    | nil =>
      rcases hk with ⟨hp, hmax⟩ | ⟨hp, hai⟩
      · have hlt : digitsVal 10 k < (List.replicate (digitsVal 10 k + 1) Json.null).length := by
          simp
        simp only [setPath, arrayIndex_plain k hp hmax, bind, Except.bind,
          ensureArray_empty cur _ hcur2 hmax, hlt, if_true, replicate_set_last, expected, hp]
      · have hc : cur = .obj [] := by
          rcases hcur with h | ⟨_, k1, r1, e, hp1⟩
          · exact h
          · simp only [List.cons.injEq] at e
            rw [← e.1, hp] at hp1
            cases hp1
        subst hc
        simp [setPath, hai, Json.setKey, objSet, expected, hp]
    | cons k2 rest2 =>
      have hrest : ∀ x ∈ k2 :: rest2, SegmentOK x := fun x hx => hok x (by simp [hx])
      obtain ⟨_, _, hk2⟩ := hok k2 (by simp)
      have hfresh : setPath (k2 :: rest2)
          (if (arrayIndex k2).isSome = true then Json.arr [] else Json.obj []) v
          = .ok (expected (k2 :: rest2) v) := by
        apply ih _ (by simp) hrest
        rcases hk2 with ⟨hp2, hmax2⟩ | ⟨hp2, hai2⟩
        · right
          simp [arrayIndex_plain k2 hp2 hmax2, hp2]
        · left
          simp [hai2]
      rcases hk with ⟨hp, hmax⟩ | ⟨hp, hai⟩
      · have hlt : digitsVal 10 k < (List.replicate (digitsVal 10 k + 1) Json.null).length := by
          simp
        simp only [setPath, arrayIndex_plain k hp hmax, bind, Except.bind,
          ensureArray_empty cur _ hcur2 hmax, hlt, if_true, replicate_getD, Json.is_null,
          hfresh, replicate_set_last]
        simp [expected, hp]
      · have hc : cur = .obj [] := by
          rcases hcur with h | ⟨_, k1, r1, e, hp1⟩
          · exact h
          · simp only [List.cons.injEq] at e
            rw [← e.1, hp] at hp1
            cases hp1
        subst hc
        have hget : ∀ j : Json, (Json.obj [(k, j)]).getKey k = j := by
          intro j; simp [Json.getKey, objFind]
        simp only [setPath, hai, Json.contains, objFind, Option.isSome_none, Bool.false_eq_true,
          if_false, Json.setKey, objSet, bind, Except.bind, hget, hfresh, if_true]
        simp [expected, hp]

/-- C10, the claim as stated fails: the segment `2147483648` is a plain
non-negative decimal index, but `std::stoi` throws `out_of_range` for it and
the `catch (...)` on line 125 leaves `isArrayIndex` false, so the value is
stored under the object key `2147483648` instead of in an array. -/
theorem C10_counterexample :
    plainIndex "2147483648".toList = true
      ∧ SetNestedValue (.obj []) (joinDots ["2147483648".toList]) (.int 5)
          = .ok (.obj [("2147483648".toList, .int 5)])
      ∧ expected ["2147483648".toList] (.int 5)
          = .arr (List.replicate (digitsVal 10 "2147483648".toList) .null ++ [.int 5])
      ∧ Json.obj [("2147483648".toList, .int 5)]
          ≠ .arr (List.replicate (digitsVal 10 "2147483648".toList) .null ++ [.int 5]) := by
  refine ⟨by rfl, by rfl, by rfl, Json.noConfusion⟩

/-- C10 (amended): nested construction from an empty record.  For every
non-empty list of non-empty, dot-free segments, each either a plain decimal
index no greater than `2^31 - 1` or a key that is not integer-like, and
every value `v`, `SetNestedValue` on an empty object with the segments
joined by dots yields exactly `expected segs v`. -/
theorem C10_nested_construction (segs : List Str) (v : Json) (hne : segs ≠ [])
    (hok : ∀ k ∈ segs, SegmentOK k) :
    SetNestedValue (.obj []) (joinDots segs) v = .ok (expected segs v) := by
  rw [SetNestedValue, getlines_joinDots segs (fun k hk => ⟨(hok k hk).1, (hok k hk).2.1⟩)]
  exact setPath_fresh v segs _ hne hok (Or.inl rfl)

/-- C10 (amended) at the path `a.b` with `ParseValue "5"` (the integer 5 is
stored, not the string) and at the path `skills.2.x`. -/
theorem C10_nested_construction_witness :
    SetNestedValue (.obj []) "a.b".toList (ParseValue "5".toList)
        = .ok (.obj [("a".toList, .obj [("b".toList, .int 5)])])
      ∧ SetNestedValue (.obj []) "skills.2.x".toList (.bool true)
        = .ok (.obj [("skills".toList, .arr [.null, .null, .obj [("x".toList, .bool true)]])]) :=
  ⟨C10_nested_construction ["a".toList, "b".toList] (ParseValue "5".toList) (by decide)
      (by
        intro k hk
        simp only [List.mem_cons, List.mem_singleton, List.not_mem_nil, or_false] at hk
        rcases hk with rfl | rfl
        · exact ⟨by decide, by decide, Or.inr ⟨by decide, by rfl⟩⟩
        · exact ⟨by decide, by decide, Or.inr ⟨by decide, by rfl⟩⟩),
   C10_nested_construction ["skills".toList, "2".toList, "x".toList] (.bool true) (by decide)
      (by
        intro k hk
        simp only [List.mem_cons, List.mem_singleton, List.not_mem_nil, or_false] at hk
        rcases hk with rfl | rfl | rfl
        · exact ⟨by decide, by decide, Or.inr ⟨by decide, by rfl⟩⟩
        · exact ⟨by decide, by decide, Or.inl ⟨by decide, by decide⟩⟩
        · exact ⟨by decide, by decide, Or.inr ⟨by decide, by rfl⟩⟩)⟩

/-! ## Claim C11 -/

theorem ensureArray_arr (a : List Json) (i : Nat) (hmax : (i : Int) ≤ INT_MAX) :
    ensureArray (.arr a) i = .ok (a ++ List.replicate (i + 1 - a.length) Json.null) := by
  simp only [INT_MAX] at hmax
  have hm : (i + 1) % SIZE_MOD = i + 1 := Nat.mod_eq_of_lt (by simp only [SIZE_MOD]; omega)
  have hv : ¬ vectorMaxSize < i + 1 := by simp only [vectorMaxSize]; omega
  by_cases h : a.length ≤ i
  · have ht : a.take (i + 1) = a := List.take_of_length_le (by omega)
    simp [ensureArray, vecResize, h, hm, hv, ht]
  · have h0 : i + 1 - a.length = 0 := by omega
    simp [ensureArray, h, h0]

theorem setPath_index_last (a : List Json) (k : Str) (i : Nat) (v : Json)
    (hk : arrayIndex k = some i) (hmax : (i : Int) ≤ INT_MAX) :
    setPath [k] (.arr a) v
      = .ok (.arr ((a ++ List.replicate (i + 1 - a.length) Json.null).set i v)) := by
  have hlt : i < (a ++ List.replicate (i + 1 - a.length) Json.null).length := by
    simp only [List.length_append, List.length_replicate]; omega
  simp only [setPath, hk, bind, Except.bind, ensureArray_arr a i hmax, hlt, if_true]

theorem extended_props (a : List Json) (i : Nat) (v : Json) :
    ((a ++ List.replicate (i + 1 - a.length) Json.null).set i v).length = max a.length (i + 1)
      ∧ ((a ++ List.replicate (i + 1 - a.length) Json.null).set i v)[i]? = some v
      ∧ (∀ j, j < a.length → j ≠ i →
          ((a ++ List.replicate (i + 1 - a.length) Json.null).set i v)[j]? = a[j]?)
      ∧ (∀ j, a.length ≤ j → j < i →
          ((a ++ List.replicate (i + 1 - a.length) Json.null).set i v)[j]? = some .null) := by
  have hlt : i < (a ++ List.replicate (i + 1 - a.length) Json.null).length := by
    simp only [List.length_append, List.length_replicate]; omega
  refine ⟨?_, ?_, ?_, ?_⟩
  · simp only [List.length_set, List.length_append, List.length_replicate]; omega
  · rw [List.getElem?_set_self hlt]
  · intro j hj hne
    rw [List.getElem?_set_ne (Ne.symm hne), List.getElem?_append_left hj]
  · intro j hj hji
    rw [List.getElem?_set_ne (by omega), List.getElem?_append_right hj,
      List.getElem?_replicate]
    have : j - a.length < i + 1 - a.length := by omega
    simp [this]

theorem setPath_key_then (ms : List (Str × Json)) (key : Str) (rest : List Str) (k : Str)
    (child out v : Json) (hkey : arrayIndex key = none)
    (hfind : objFind key ms = some child)
    (hrest : setPath (k :: rest) child v = .ok out) :
    setPath (key :: k :: rest) (.obj ms) v = .ok (.obj (objSet key out ms)) := by
  simp only [setPath, hkey, Json.contains, hfind, Option.isSome_some, if_true, bind, Except.bind,
    Json.getKey, Option.getD_some, hrest, Json.setKey]

/-- C11 (amended): array auto-extension.  For every array `a` of length `n`,
every final segment that the code reads as the index `i` with
`i ≤ 2^31 - 1`, and every value `v`, assigning at that segment gives an array
of length `max n (i + 1)` whose element `i` is `v`, whose elements below `n`
other than `i` are unchanged and whose new slots `n .. i-1` are null; and
when the array is the member `key` of an object, `SetNestedValue` with the
path `key.i` stores exactly that array back under `key`. -/
theorem C11_array_extension (a : List Json) (k : Str) (i : Nat) (v : Json)
    (hk : arrayIndex k = some i) (hmax : (i : Int) ≤ INT_MAX) :
    ∃ b, setPath [k] (.arr a) v = .ok (.arr b)
      ∧ b.length = max a.length (i + 1)
      ∧ b[i]? = some v
      ∧ (∀ j, j < a.length → j ≠ i → b[j]? = a[j]?)
      ∧ (∀ j, a.length ≤ j → j < i → b[j]? = some .null)
      ∧ (∀ (ms : List (Str × Json)) (key : Str), key ≠ [] → dot ∉ key → k ≠ [] → dot ∉ k →
          arrayIndex key = none → objFind key ms = some (.arr a) →
          SetNestedValue (.obj ms) (joinDots [key, k]) v = .ok (.obj (objSet key (.arr b) ms))) := by
  obtain ⟨h1, h2, h3, h4⟩ := extended_props a i v
  refine ⟨_, setPath_index_last a k i v hk hmax, h1, h2, h3, h4, ?_⟩
  intro ms key hk1 hk2 hk3 hk4 hkey hfind
  have hsplit : getlines dot (joinDots [key, k]) = [key, k] :=
    getlines_joinDots [key, k] (by
      intro x hx
      simp only [List.mem_cons, List.mem_singleton, List.not_mem_nil, or_false] at hx
      rcases hx with rfl | rfl
      · exact ⟨hk1, hk2⟩
      · exact ⟨hk3, hk4⟩)
  rw [SetNestedValue, hsplit]
  exact setPath_key_then ms key [] k (.arr a) _ v hkey hfind (setPath_index_last a k i v hk hmax)

/-- C11, the claim as stated fails: at the index 2147483648, written as the
final segment of the path `skills.2147483648`, `std::stoi` throws
`out_of_range`, the segment is taken for an object key, and the assignment
into the array under `skills` throws `type_error` 305 instead of growing it. -/
theorem C11_counterexample :
    plainIndex "2147483648".toList = true
      ∧ SetNestedValue (.obj [("skills".toList, .arr [])]) "skills.2147483648".toList (.int 5)
        = .error (.type_error 305 ("[json.exception.type_error.305] ".toList
            ++ "cannot use operator[] with a string argument with array".toList)) := by
  refine ⟨by rfl, by rfl⟩

/-- C11 (amended) at the array `["x"]` with final segment `1`, and the record
of the specification: `skills.0` = `x`, then `skills.1` = `y`, gives
`skills` = `["x", "y"]`. -/
theorem C11_array_extension_witness :
    (∃ b, setPath ["1".toList] (.arr [.str "x".toList]) (.str "y".toList) = .ok (.arr b)
        ∧ b.length = 2 ∧ b[1]? = some (.str "y".toList))
      ∧ (SetNestedValue (.obj []) "skills.0".toList (.str "x".toList)
          >>= fun j => SetNestedValue j "skills.1".toList (.str "y".toList))
        = .ok (.obj [("skills".toList, .arr [.str "x".toList, .str "y".toList])])
      ∧ buildRecord ["name".toList, "skills.0".toList, "skills.1".toList]
          ["bob".toList, "x".toList, "y".toList]
        = .ok (.obj [(nameKey, .str "bob".toList),
            ("skills".toList, .arr [.str "x".toList, .str "y".toList])]) := by
  obtain ⟨b, hb, hl, hi, _⟩ := C11_array_extension [.str "x".toList] "1".toList 1
    (.str "y".toList) (by rfl) (by decide)
  exact ⟨⟨b, hb, hl, hi⟩, by rfl, by rfl⟩
/-! ## Claim C12 -/

theorem objSet_perm (k : Str) (v : Json) (ms : List (Str × Json)) (h : objFind k ms = none) :
    (objSet k v ms).Perm ((k, v) :: ms) := by
  induction ms with
  | nil => simp [objSet]
  | cons m ms ih =>
    obtain ⟨k0, v0⟩ := m
    by_cases hk : k0 = k
    · simp [objFind, hk] at h
    · simp only [objFind, hk, if_false] at h
      by_cases hlt : strLt k k0 = true
      · simp [objSet, hk, hlt]
      · simp only [objSet, hk, hlt, if_false]
        exact ((ih h).cons (k0, v0)).trans (List.Perm.swap _ _ _)

theorem recordCount_objSet (k : Str) (v : Json) (ms : List (Str × Json))
    (h : objFind k ms = none) (hk : isRecordKey k = true) :
    recordCount (objSet k v ms) = recordCount ms + 1 := by
  have hp := ((objSet_perm k v ms h).filter (fun m => isRecordKey m.1)).length_eq
  simp only [recordCount, hp, List.filter_cons, hk, if_true, List.length_cons]

theorem processRows_count (headers : List Str) (data : List (List Str)) :
    ∀ (i : Nat) (res : List (Str × Json)), (∀ r ∈ data, HasName headers r) →
      data.Pairwise (fun r1 r2 => ∀ s, Named headers r1 s → ¬ Named headers r2 s) →
      (∀ r ∈ data, ∀ s, Named headers r s → objFind s res = none ∧ isRecordKey s = true) →
      ∃ res1, processRows headers data i (.obj res) = .ok (.obj res1)
        ∧ recordCount res1 = recordCount res + data.length := by
  induction data with
  | nil =>
    intro i res _ _ _
    exact ⟨res, by simp [processRows], by simp⟩
  | cons row rest ih =>
    intro i res hall hpair hfresh
    obtain ⟨ms0, s0, hb0, hn0⟩ := hall row (by simp)
    obtain ⟨hhead, htail⟩ := List.pairwise_cons.mp hpair
    obtain ⟨hnone, hrec⟩ := hfresh row (by simp) s0 ⟨ms0, hb0, hn0⟩
    obtain ⟨res1, hp, hc⟩ :=
      ih (i + 1) (objSet s0 (.obj (objErase nameKey ms0)) res)
        (fun r hr => hall r (by simp [hr])) htail
        (by
          intro r hr s hs
          have hne : s0 ≠ s := by
            intro e
            exact hhead r hr s0 ⟨ms0, hb0, hn0⟩ (e ▸ hs)
          rw [objFind_objSet_other _ _ _ _ hne]
          exact hfresh r (by simp [hr]) s hs)
    refine ⟨res1, ?_, ?_⟩
    · rw [processRows_step headers row rest i res ms0 s0 hb0 hn0]; exact hp
    · rw [hc, recordCount_objSet _ _ _ hnone hrec, List.length_cons]; omega

/-- C12 (amended): record count.  For every input on which `main` succeeds,
whose data rows have pairwise distinct name values none of which is `Name`
or `Version`, the number of records in the written document (its top-level
entries other than `Name` and `Version`) is the number of rows minus 1. -/
theorem C12_record_count (file : Option Str) (rows : List (List Str)) (code : Nat)
    (err out : Str) (result : Json)
    (hread : ReadCsv csvPath file = .ok rows)
    (hmain : main file = .exited code err out (some result))
    (hdistinct : rows.tail.Pairwise
      (fun r1 r2 => ∀ s, Named (rows.headD []) r1 s → ¬ Named (rows.headD []) r2 s))
    (hfree : ∀ r ∈ rows.tail, ¬ Named (rows.headD []) r "Name".toList
      ∧ ¬ Named (rows.headD []) r "Version".toList) :
    ∃ res, result = .obj res ∧ recordCount res = rows.length - 1 := by
  obtain ⟨text, hfile, _, hp, _⟩ := main_written file code err out result hmain
  subst hfile
  simp only [ReadCsv, Except.ok.injEq] at hread
  subst hread
  have hall := processRows_ok_hasName _ _ _ _ _ hp
  obtain ⟨res1, hp1, hc⟩ :=
    processRows_count (((getlines newline text).map parseLine).headD [])
      ((getlines newline text).map parseLine).tail 1 initialResult hall hdistinct
      (by
        intro r hr s hs
        have h1 : s ≠ "Name".toList := fun e => (hfree r hr).1 (e ▸ hs)
        have h2 : s ≠ "Version".toList := fun e => (hfree r hr).2 (e ▸ hs)
        refine ⟨?_, ?_⟩
        · simp only [initialResult, objFind]
          rw [if_neg (Ne.symm h1), if_neg (Ne.symm h2)]
        · simp only [isRecordKey, Bool.and_eq_true, bne_iff_ne, ne_eq]
          exact ⟨h1, h2⟩)
  rw [hp1] at hp
  simp only [Except.ok.injEq] at hp
  refine ⟨res1, hp.symm, ?_⟩
  have h0 : recordCount initialResult = 0 := by rfl
  rw [hc, h0, List.length_tail]; omega

/-- C12, the claim as stated fails: the input `name` / `Name` has two rows, a
`name` column and one data row (so pairwise distinct names); the run
succeeds, but the record is stored under `Name`, replacing the fixed field,
and the document has no entry other than `Name` and `Version`: 0 records,
not 1. -/
theorem C12_counterexample :
    ReadCsv csvPath (some "name\nName\n".toList) = .ok [["name".toList], ["Name".toList]]
      ∧ main (some "name\nName\n".toList)
        = .exited 0 [] successMessage
            (some (.obj [("Name".toList, .obj []), ("Version".toList, .str "1.0".toList)]))
      ∧ recordCount [("Name".toList, .obj []), ("Version".toList, .str "1.0".toList)] = 0
      ∧ [["name".toList], ["Name".toList]].length - 1 = 1 := by
  refine ⟨by rfl, by rfl, by rfl, by rfl⟩

theorem named_unique (headers row : List Str) (ms : List (Str × Json)) (s t : Str)
    (hb : buildRecord headers row = .ok (.obj ms))
    (hn : objFind nameKey ms = some (.str s)) (h : Named headers row t) : t = s := by
  obtain ⟨ms1, hb1, hn1⟩ := h
  rw [hb] at hb1
  simp only [Except.ok.injEq, Json.obj.injEq] at hb1
  subst hb1
  rw [hn] at hn1
  simp only [Option.some.injEq, Json.str.injEq] at hn1
  exact hn1.symm

/-- C12 (amended) at the input `name,age` / `bob,5` / `amy,7`: three rows, two
records. -/
theorem C12_record_count_witness :
    ∃ res, main (some "name,age\nbob,5\namy,7\n".toList)
        = .exited 0 [] successMessage (some (.obj res))
      ∧ recordCount res = 2 := by
  have hb1 : buildRecord ["name".toList, "age".toList] ["bob".toList, "5".toList]
      = .ok (.obj [("age".toList, .int 5), (nameKey, .str "bob".toList)]) := by rfl
  have hb2 : buildRecord ["name".toList, "age".toList] ["amy".toList, "7".toList]
      = .ok (.obj [("age".toList, .int 7), (nameKey, .str "amy".toList)]) := by rfl
  have hmain : main (some "name,age\nbob,5\namy,7\n".toList)
      = .exited 0 [] successMessage
          (some (.obj [("Name".toList, .str "Address".toList),
            ("Version".toList, .str "1.0".toList),
            ("amy".toList, .obj [("age".toList, .int 7)]),
            ("bob".toList, .obj [("age".toList, .int 5)])])) := by rfl
  obtain ⟨res, hres, hc⟩ := C12_record_count (some "name,age\nbob,5\namy,7\n".toList)
    [["name".toList, "age".toList], ["bob".toList, "5".toList], ["amy".toList, "7".toList]]
    0 [] successMessage _ (by rfl) hmain
    (by
      simp only [List.tail_cons, List.headD_cons, List.pairwise_cons, List.mem_singleton,
        List.not_mem_nil, List.Pairwise.nil, and_true, forall_eq, false_implies, implies_true]
      intro s h1 h2
      have e1 := named_unique _ _ _ _ s hb1 (by rfl) h1
      have e2 := named_unique _ _ _ _ s hb2 (by rfl) h2
      rw [e1] at e2
      exact absurd e2 (by decide))
    (by
      intro r hr
      simp only [List.tail_cons, List.mem_cons, List.mem_singleton, List.not_mem_nil,
        or_false] at hr
      rcases hr with rfl | rfl
      · exact ⟨fun h => absurd (named_unique _ _ _ _ _ hb1 (by rfl) h) (by decide),
          fun h => absurd (named_unique _ _ _ _ _ hb1 (by rfl) h) (by decide)⟩
      · exact ⟨fun h => absurd (named_unique _ _ _ _ _ hb2 (by rfl) h) (by decide),
          fun h => absurd (named_unique _ _ _ _ _ hb2 (by rfl) h) (by decide)⟩)
  refine ⟨res, ?_, by simpa using hc⟩
  rw [hmain, ← hres]
/-! ## Claim C13 -/

/-- C13: duplicate names overwrite.  For every input on which `main`
succeeds, the record stored under a name is the one built from the last data
row bearing that name (its `name` member removed); and a run whose data rows
all hold a string under `name` succeeds whether or not names repeat: no
duplicate-key error exists. -/
theorem C13_duplicate_names_overwrite (file : Option Str) (rows : List (List Str))
    (hread : ReadCsv csvPath file = .ok rows) :
    (∀ (code : Nat) (err out : Str) (result : Json),
        main file = .exited code err out (some result) →
        ∃ res, result = .obj res
          ∧ ∀ pre r post ms s, rows.tail = pre ++ r :: post →
              buildRecord (rows.headD []) r = .ok (.obj ms) →
              objFind nameKey ms = some (.str s) →
              (∀ r1 ∈ post, ¬ Named (rows.headD []) r1 s) →
              objFind s res = some (.obj (objErase nameKey ms)))
      ∧ (2 ≤ rows.length → (∀ r ∈ rows.tail, HasName (rows.headD []) r) →
          ∃ res, main file = .exited 0 [] successMessage (some (.obj res))) := by
  cases file with
  | none => simp [ReadCsv] at hread
  | some text =>
    simp only [ReadCsv, Except.ok.injEq] at hread
    subst hread
    constructor
    · intro code err out result hmain
      obtain ⟨text1, hfile, _, hp, _⟩ := main_written (some text) code err out result hmain
      simp only [Option.some.injEq] at hfile
      subst hfile
      have hall := processRows_ok_hasName _ _ _ _ _ hp
      obtain ⟨res1, hp1, _, hlast⟩ :=
        processRows_spec (((getlines newline text).map parseLine).headD [])
          ((getlines newline text).map parseLine).tail 1 initialResult hall
      rw [hp1] at hp
      simp only [Except.ok.injEq] at hp
      exact ⟨res1, hp.symm, hlast⟩
    · intro hlen hall
      obtain ⟨res1, hp1, _, _⟩ :=
        processRows_spec (((getlines newline text).map parseLine).headD [])
          ((getlines newline text).map parseLine).tail 1 initialResult hall
      exact ⟨res1, main_of_processRows text _ hlen hp1⟩

/-- C13 at the input `name,a` / `x,1` / `y,3` / `x,2`: the run succeeds and
`x` maps to the record of the last row, where `a` is 2. -/
theorem C13_duplicate_names_overwrite_witness :
    main (some "name,a\nx,1\ny,3\nx,2\n".toList)
        = .exited 0 [] successMessage
            (some (.obj [("Name".toList, .str "Address".toList),
              ("Version".toList, .str "1.0".toList),
              ("x".toList, .obj [("a".toList, .int 2)]),
              ("y".toList, .obj [("a".toList, .int 3)])]))
      ∧ objFind "x".toList [("Name".toList, .str "Address".toList),
              ("Version".toList, .str "1.0".toList),
              ("x".toList, .obj [("a".toList, .int 2)]),
              ("y".toList, .obj [("a".toList, .int 3)])]
          = some (.obj (objErase nameKey [("a".toList, .int 2), (nameKey, .str "x".toList)])) := by
  have hmain : main (some "name,a\nx,1\ny,3\nx,2\n".toList)
        = .exited 0 [] successMessage
            (some (.obj [("Name".toList, .str "Address".toList),
              ("Version".toList, .str "1.0".toList),
              ("x".toList, .obj [("a".toList, .int 2)]),
              ("y".toList, .obj [("a".toList, .int 3)])])) := by rfl
  obtain ⟨res, hres, h⟩ := (C13_duplicate_names_overwrite (some "name,a\nx,1\ny,3\nx,2\n".toList)
    [["name".toList, "a".toList], ["x".toList, "1".toList], ["y".toList, "3".toList],
      ["x".toList, "2".toList]] (by rfl)).1 0 [] successMessage _ hmain
  simp only [Json.obj.injEq] at hres
  subst hres
  exact ⟨hmain, h [["x".toList, "1".toList], ["y".toList, "3".toList]] ["x".toList, "2".toList] []
    [("a".toList, .int 2), (nameKey, .str "x".toList)] "x".toList (by rfl) (by rfl) (by rfl)
    (by intro r1 hr1; simp at hr1)⟩
/-! ## Claim C14 -/

theorem rawValue_eq (row : List Str) (j : Nat) :
    (if j < row.length then row.getD j [] else []) = row.getD j [] := by
  split
  · rfl
  · rename_i h
    simp [List.getD_eq_getElem?_getD, List.getElem?_eq_none (Nat.le_of_not_lt h)]

theorem fillRecord_congr (r1 r2 : List Str) (hs : List Str) :
    ∀ (j : Nat) (obj : Json),
      (∀ idx, j ≤ idx → idx < j + hs.length → r1.getD idx [] = r2.getD idx []) →
      fillRecord r1 hs j obj = fillRecord r2 hs j obj := by
  induction hs with
  | nil => intro j obj _; simp [fillRecord]
  | cons h hs ih =>
    intro j obj hc
    have h0 := hc j (Nat.le_refl j) (by simp)
    rw [fillRecord, fillRecord, rawValue_eq, rawValue_eq, h0]
    cases SetNestedValue obj h (ParseValue (r2.getD j [])) with
    | error e => rfl
    | ok obj1 =>
      simp only [bind, Except.bind]
      exact ih (j + 1) obj1 (fun idx h1 h2 => hc idx (by omega)
        (by simp only [List.length_cons]; omega))

theorem fillRecord_append (r : List Str) (hs hs2 : List Str) :
    ∀ (j : Nat) (obj : Json),
      fillRecord r (hs ++ hs2) j obj
        = (fillRecord r hs j obj >>= fun o => fillRecord r hs2 (j + hs.length) o) := by
  induction hs with
  | nil => intro j obj; simp [fillRecord, bind, Except.bind]
  | cons h hs ih =>
    intro j obj
    simp only [List.cons_append, fillRecord, bind, Except.bind]
    cases SetNestedValue obj h (ParseValue (if j < r.length then r.getD j [] else [])) with
    | error e => rfl
    | ok obj1 =>
      have := ih (j + 1) obj1
      simp only [bind, Except.bind] at this
      have hl : j + (h :: hs).length = j + 1 + hs.length := by
        simp only [List.length_cons]; omega
      rw [hl]
      exact this

theorem getD_zipRow (n : Nat) (r : List Str) (idx : Nat) (h : idx < n) :
    (zipRow n r).getD idx [] = r.getD idx [] := by
  simp only [zipRow, List.getD_eq_getElem?_getD]
  by_cases hr : idx < r.length
  · rw [List.getElem?_append_left (by simp; omega), List.getElem?_take_of_lt h]
  · have hl : (r.take n).length = r.length := by simp; omega
    rw [List.getElem?_append_right (by omega), List.getElem?_replicate,
      List.getElem?_eq_none (by omega)]
    split <;> rfl

theorem getD_of_take_eq (n : Nat) (r1 r2 : List Str) (idx : Nat) (h : idx < n)
    (ht : r1.take n = r2.take n) : r1.getD idx [] = r2.getD idx [] := by
  have h1 : (r1.take n)[idx]? = r1[idx]? := List.getElem?_take_of_lt h
  have h2 : (r2.take n)[idx]? = r2[idx]? := List.getElem?_take_of_lt h
  simp only [List.getD_eq_getElem?_getD, ← h1, ← h2, ht]

/-- C14: positional zip of a data row against the headers.  The record built
from a row equals the record built from the row truncated to, or padded with
empty strings up to, the number of headers; two rows that agree on their
first `|h|` cells build the same record; and a header whose cell is missing
from the row is assigned null, the coercion of the empty string. -/
theorem C14_positional_zip (h r : List Str) :
    buildRecord h r = buildRecord h (zipRow h.length r)
      ∧ (∀ r1 : List Str, r1.take h.length = r.take h.length →
          buildRecord h r1 = buildRecord h r)
      ∧ (∀ hd : Str, r.length ≤ h.length →
          buildRecord (h ++ [hd]) r
            = (buildRecord h r >>= fun obj => SetNestedValue obj hd .null)) := by
  refine ⟨?_, ?_, ?_⟩
  · exact fillRecord_congr _ _ h 0 _
      (fun idx _ h2 => (getD_zipRow h.length r idx (by omega)).symm)
  · intro r1 ht
    exact fillRecord_congr _ _ h 0 _
      (fun idx _ h2 => getD_of_take_eq h.length r1 r idx (by omega) ht)
  · intro hd hlen
    have hlt : ¬ (h.length < r.length) := by omega
    simp only [buildRecord, fillRecord_append, fillRecord, Nat.zero_add, hlt, if_false]
    have hp : ParseValue [] = .null := by rfl
    rw [hp]
    cases fillRecord r h 0 (.obj []) with
    | error e => rfl
    | ok o =>
      simp only [bind, Except.bind]
      cases SetNestedValue o hd .null <;> rfl

/-- C14 at the headers `name,a,b`: a fourth cell changes nothing, and a row
without a third cell gets null under `b`. -/
theorem C14_positional_zip_witness :
    buildRecord ["name".toList, "a".toList, "b".toList] ["bob".toList, "1".toList, "2".toList,
        "9".toList]
      = buildRecord ["name".toList, "a".toList, "b".toList] ["bob".toList, "1".toList, "2".toList]
      ∧ buildRecord ["name".toList, "a".toList, "b".toList] ["bob".toList, "1".toList]
        = .ok (.obj [("a".toList, .int 1), ("b".toList, .null), (nameKey, .str "bob".toList)]) := by
  have h1 := (C14_positional_zip ["name".toList, "a".toList, "b".toList]
    ["bob".toList, "1".toList, "2".toList]).2.1
    ["bob".toList, "1".toList, "2".toList, "9".toList] (by rfl)
  have h2 := (C14_positional_zip ["name".toList, "a".toList] ["bob".toList, "1".toList]).2.2
    "b".toList (by decide)
  refine ⟨h1, ?_⟩
  rw [show ["name".toList, "a".toList, "b".toList] = ["name".toList, "a".toList] ++ ["b".toList]
    from rfl, h2]
  rfl

/-! ## Claim C15 -/

theorem caught_err_ne (e : Exn) (code : Nat) (err out : Str) (w : Option Json)
    (h : caught e = .exited code err out w) : err ≠ emptyInputMessage := by
  have hne : ∀ t : Str, "エラー: ".toList ++ t ≠ emptyInputMessage := by
    intro t ht
    have h1 := congrArg List.head? ht
    have h2 : ("エラー: ".toList ++ t).head? = some (Char.ofNat 12456) := by rfl
    have h3 : emptyInputMessage.head? = some (Char.ofNat 67) := by rfl
    rw [h2, h3] at h1
    exact absurd h1 (by decide)
  cases e <;> simp only [caught, Outcome.exited.injEq] at h
  all_goals first
    | (obtain ⟨_, h2, _, _⟩ := h
       rw [← h2, List.append_assoc]
       exact hne _)
    | exact absurd h (by simp)

/-- C15: empty input is rejected.  When the input parses to fewer than two
rows, `main` takes the early return of line 190 (before the row loop) and
ends with exit status 1 and the "no data" message, writing nothing; with two
rows or more the run never ends with that message. -/
theorem C15_empty_input (file : Option Str) (rows : List (List Str))
    (hread : ReadCsv csvPath file = .ok rows) :
    (rows.length < 2 →
        convert file = .ok none ∧ main file = .exited 1 emptyInputMessage [] none)
      ∧ (2 ≤ rows.length → ∀ (code : Nat) (err out : Str) (w : Option Json),
          main file = .exited code err out w → err ≠ emptyInputMessage) := by
  cases file with
  | none => simp [ReadCsv] at hread
  | some text =>
    simp only [ReadCsv, Except.ok.injEq] at hread
    subst hread
    constructor
    · intro hlt
      have hc : convert (some text) = .ok none := by
        rw [convert_some, if_pos hlt]
      exact ⟨hc, by simp only [main, hc, emptyInputMessage]⟩
    · intro hlen code err out w hmain
      have hlt : ¬ ((getlines newline text).map parseLine).length < 2 := by omega
      cases hp : processRows (((getlines newline text).map parseLine).headD [])
          ((getlines newline text).map parseLine).tail 1 (.obj initialResult) with
      | error e =>
        have : main (some text) = caught e := by
          simp only [main, convert_some, hlt, if_false, hp, Except.map]
        rw [this] at hmain
        exact caught_err_ne e code err out w hmain
      | ok r =>
        rw [main_of_processRows text r hlen hp] at hmain
        simp only [Outcome.exited.injEq] at hmain
        rw [← hmain.2.1]
        decide

/-- C15 at a header-only input, at the empty input, and at the two-row input
`name` / `bob`. -/
theorem C15_empty_input_witness :
    main (some "name,age\n".toList) = .exited 1 emptyInputMessage [] none
      ∧ main (some []) = .exited 1 emptyInputMessage [] none
      ∧ (∃ code err out w, main (some "name\nbob\n".toList) = .exited code err out w
          ∧ err ≠ emptyInputMessage) :=
  ⟨((C15_empty_input (some "name,age\n".toList) [["name".toList, "age".toList]] (by rfl)).1
      (by decide)).2,
   ((C15_empty_input (some []) [] (by rfl)).1 (by decide)).2,
   ⟨0, [], successMessage,
    some (.obj [("Name".toList, .str "Address".toList), ("Version".toList, .str "1.0".toList),
      ("bob".toList, .obj [])]), by rfl,
    (C15_empty_input (some "name\nbob\n".toList) [["name".toList], ["bob".toList]] (by rfl)).2
      (by decide) _ _ _ _ (by rfl)⟩⟩
/-! ## Claim C16 -/

theorem mainRun_of_main (dump : Json → Except Exn Str) (file : Option Str) :
    mainRun dump file
      = (match main file with
         | .undefined => .undefined
         | .exited code err out none => .exited code err out .untouched
         | .exited _ _ _ (some result) =>
           match dump result with
           | .error e => caughtRun e (.holds [])
           | .ok text => .exited 0 [] successMessage (.holds (text ++ [newline]))) := by
  unfold mainRun main
  cases hc : convert file with
  | error e => cases e <;> rfl
  | ok r =>
    cases r with
    | none => rfl
    | some result => rfl

theorem convert_of_processRows (file : Option Str) (rows : List (List Str)) (r : Except Exn Json)
    (hread : ReadCsv csvPath file = .ok rows) (hlen : 2 ≤ rows.length)
    (hrows : processRows (rows.headD []) rows.tail 1 (.obj initialResult) = r) :
    convert file = r.map some := by
  cases file with
  | none => simp [ReadCsv] at hread
  | some text =>
    simp only [ReadCsv, Except.ok.injEq] at hread
    subst hread
    have hlt : ¬ ((getlines newline text).map parseLine).length < 2 := by omega
    rw [convert_some, if_neg hlt, hrows]

theorem mainRun_before_open (dump : Json → Except Exn Str) (file : Option Str) :
    (file = none → ∃ err, mainRun dump file = .exited 1 err [] .untouched)
      ∧ (∀ rows, ReadCsv csvPath file = .ok rows → rows.length < 2 →
          mainRun dump file = .exited 1 emptyInputMessage [] .untouched)
      ∧ (∀ rows e, ReadCsv csvPath file = .ok rows → 2 ≤ rows.length →
          processRows (rows.headD []) rows.tail 1 (.obj initialResult) = .error e →
          mainRun dump file = caughtRun e .untouched)
      ∧ (∀ rows result text, ReadCsv csvPath file = .ok rows → 2 ≤ rows.length →
          processRows (rows.headD []) rows.tail 1 (.obj initialResult) = .ok result →
          dump result = .ok text →
          mainRun dump file = .exited 0 [] successMessage (.holds (text ++ [newline]))) := by
  refine ⟨?_, ?_, ?_, ?_⟩
  · intro h
    subst h
    exact ⟨_, rfl⟩
  · intro rows hread hlt
    cases file with
    | none => simp [ReadCsv] at hread
    | some text =>
      simp only [ReadCsv, Except.ok.injEq] at hread
      subst hread
      have hc : convert (some text) = .ok none := by rw [convert_some, if_pos hlt]
      simp only [mainRun, hc, emptyInputMessage]
  · intro rows e hread hlen hp
    have hc := convert_of_processRows file rows _ hread hlen hp
    simp only [mainRun, hc, Except.map]
  · intro rows result text hread hlen hp hd
    have hc := convert_of_processRows file rows _ hread hlen hp
    simp only [mainRun, hc, Except.map, hd, successMessage]

/-- C16, the code on the failing path: when every data row has been processed
and `dump(2)` then throws (as it does, with `type_error` 316, for a document
holding text that is not valid UTF-8), the run ends with exit status 1 and
`export.json` opened and truncated: line 225 opens the file before line 226
serialises the document.  A failing run has then touched the output. -/
theorem C16_output_truncated_when_dump_throws (dump : Json → Except Exn Str)
    (file : Option Str) (rows : List (List Str)) (result : Json) (id : Nat) (what : Str)
    (hread : ReadCsv csvPath file = .ok rows) (hlen : 2 ≤ rows.length)
    (hrows : processRows (rows.headD []) rows.tail 1 (.obj initialResult) = .ok result)
    (hdump : dump result = .error (.type_error id what)) :
    mainRun dump file = .exited 1 ("エラー: ".toList ++ what ++ [newline]) [] (.holds []) := by
  have hc := convert_of_processRows file rows _ hread hlen hrows
  simp only [mainRun, hc, Except.map, hdump, caughtRun, Exn.what]

/-- C16 on the failing path, at a two-row input and a `dump` that throws the
error the library raises for a cell holding the byte 0x93: exit status 1,
`export.json` left empty. -/
theorem C16_output_truncated_when_dump_throws_witness :
    mainRun (fun _ => .error (.type_error 316 ("[json.exception.type_error.316] ".toList
        ++ "invalid UTF-8 byte at index 0: 0x93".toList))) (some "name,city\nbob,?\n".toList)
      = .exited 1 ("エラー: ".toList ++ ("[json.exception.type_error.316] ".toList
          ++ "invalid UTF-8 byte at index 0: 0x93".toList) ++ [newline]) [] (.holds []) :=
  C16_output_truncated_when_dump_throws _ (some "name,city\nbob,?\n".toList)
    [["name".toList, "city".toList], ["bob".toList, "?".toList]]
    (.obj [("Name".toList, .str "Address".toList), ("Version".toList, .str "1.0".toList),
      ("bob".toList, .obj [("city".toList, .str "?".toList)])]) 316 _
    (by rfl) (by decide) (by rfl) rfl

/-! ## Claim C17 -/

theorem commaPieces_ne_nil (line : Str) : commaPieces line ≠ [] := by
  cases line with
  | nil => simp [commaPieces]
  | cons c cs =>
    simp only [commaPieces]
    split
    · simp
    · split <;> simp

theorem commaPieces_cons (c : Char) (cs : Str) (h : c ≠ comma) :
    ∃ p ps, commaPieces cs = p :: ps ∧ commaPieces (c :: cs) = (c :: p) :: ps := by
  obtain ⟨p, ps, hp⟩ := List.exists_cons_of_ne_nil (commaPieces_ne_nil cs)
  exact ⟨p, ps, hp, by simp [commaPieces, h, hp]⟩

theorem parseLineAux_unquoted (line : Str) (h : dquote ∉ line) :
    ∀ (cell : Str) (row : List Str), ∃ p ps, commaPieces line = p :: ps
      ∧ parseLineAux line false cell row = row ++ (cell ++ p) :: ps := by
  induction line with
  | nil => intro cell row; exact ⟨[], [], rfl, by simp [parseLineAux]⟩
  | cons c cs ih =>
    intro cell row
    have hc : c ≠ dquote := fun e => h (by simp [e])
    have hcs : dquote ∉ cs := fun e => h (by simp [e])
    by_cases hk : c = comma
    · subst hk
      obtain ⟨p, ps, hp, hq⟩ := ih hcs [] (row ++ [cell])
      refine ⟨[], p :: ps, by simp [commaPieces, hp], ?_⟩
      rw [parseLineAux_comma, hq]
      simp
    · obtain ⟨p, ps, hp, hq⟩ := ih hcs (cell ++ [c]) row
      refine ⟨c :: p, ps, by simp [commaPieces, hk, hp], ?_⟩
      rw [parseLineAux_plain _ _ _ _ _ hc (Or.inl hk), hq]
      simp

theorem parseLine_unquoted (line : Str) (h : dquote ∉ line) :
    parseLine line = commaPieces line := by
  obtain ⟨p, ps, hp, hq⟩ := parseLineAux_unquoted line h [] []
  simp [parseLine, hq, hp]

theorem commaPieces_length (line : Str) :
    (commaPieces line).length = line.count comma + 1 := by
  induction line with
  | nil => simp [commaPieces]
  | cons c cs ih =>
    by_cases hk : c = comma
    · subst hk
      simp [commaPieces, ih]
    · obtain ⟨p, ps, hp, hq⟩ := commaPieces_cons c cs hk
      rw [hq, List.count_cons_of_ne (Ne.symm hk), ← ih, hp]
      simp

theorem commaPieces_comma_free (line : Str) : ∀ p ∈ commaPieces line, comma ∉ p := by
  induction line with
  | nil => simp [commaPieces]
  | cons c cs ih =>
    by_cases hk : c = comma
    · subst hk
      intro p hp
      simp only [commaPieces, if_true, List.mem_cons] at hp
      rcases hp with rfl | hp
      · simp
      · exact ih p hp
    · obtain ⟨p0, ps, hp, hq⟩ := commaPieces_cons c cs hk
      rw [hq]
      rw [hp] at ih
      intro p hpm
      rcases List.mem_cons.mp hpm with rfl | hpm
      · intro hm
        rcases List.mem_cons.mp hm with e | hm
        · exact hk e.symm
        · exact ih p0 (by simp) hm
      · exact ih p (by simp [hpm])

theorem joinCommas_commaPieces (line : Str) : joinCommas (commaPieces line) = line := by
  induction line with
  | nil => simp [commaPieces, joinCommas]
  | cons c cs ih =>
    by_cases hk : c = comma
    · subst hk
      obtain ⟨p, ps, hp⟩ := List.exists_cons_of_ne_nil (commaPieces_ne_nil cs)
      simp only [commaPieces, if_true, hp, joinCommas, List.nil_append]
      rw [← hp, ih]
    · obtain ⟨p, ps, hp, hq⟩ := commaPieces_cons c cs hk
      rw [hq]
      rw [hp] at ih
      cases ps with
      | nil => simp only [joinCommas] at ih ⊢; rw [ih]
      | cons q qs => simp only [joinCommas, List.cons_append] at ih ⊢; rw [ih]

theorem commaPieces_append_comma (line : Str) :
    commaPieces (line ++ [comma]) = commaPieces line ++ [[]] := by
  induction line with
  | nil => simp [commaPieces]
  | cons c cs ih =>
    by_cases hk : c = comma
    · subst hk
      simp [commaPieces, ih]
    · obtain ⟨p, ps, hp, hq⟩ := commaPieces_cons c cs hk
      rw [List.cons_append, hq]
      simp only [commaPieces, hk, if_false]
      rw [ih, hp]
      simp

/-- C17: unquoted splitting.  For every line without a double quote the
parsed row is the list of the maximal comma-free pieces of the line, in
order: it has exactly (number of commas + 1) cells, never zero; no cell
holds a comma and the cells joined by commas give the line back; a line
ending in a comma ends with an empty cell, and the empty line yields the
one-cell row `[""]`. -/
theorem C17_unquoted_splitting (line : Str) (h : dquote ∉ line) :
    parseLine line = commaPieces line
      ∧ (parseLine line).length = line.count comma + 1
      ∧ parseLine line ≠ []
      ∧ (∀ p ∈ parseLine line, comma ∉ p)
      ∧ joinCommas (parseLine line) = line
      ∧ parseLine (line ++ [comma]) = parseLine line ++ [[]]
      ∧ parseLine [] = [[]] := by
  have h1 := parseLine_unquoted line h
  have h2 : dquote ∉ line ++ [comma] := by
    simp only [List.mem_append, List.mem_singleton, not_or]
    exact ⟨h, dquote_ne_comma⟩
  refine ⟨h1, ?_, ?_, ?_, ?_, ?_, by rfl⟩
  · rw [h1, commaPieces_length]
  · rw [h1]; exact commaPieces_ne_nil line
  · rw [h1]; exact commaPieces_comma_free line
  · rw [h1]; exact joinCommas_commaPieces line
  · rw [parseLine_unquoted _ h2, h1, commaPieces_append_comma]

/-- C17 at the line `a,,b,`: four cells, the second and the last empty. -/
theorem C17_unquoted_splitting_witness :
    parseLine "a,,b,".toList = ["a".toList, [], "b".toList, []]
      ∧ (parseLine "a,,b,".toList).length = 4 := by
  have h := C17_unquoted_splitting "a,,b,".toList (by decide)
  exact ⟨h.1.trans (by decide), h.2.1.trans (by decide)⟩
/-! ## Claim C18 -/

theorem openUtf8FileSkipBom_remaining (path : Str) (bytes : List Nat) :
    ∃ s, openUtf8FileSkipBom path (some bytes) = .ok s
      ∧ s.remaining = (if bytes.take 3 = [239, 187, 191] then bytes.drop 3 else bytes) := by
  rcases bytes with _ | ⟨a, _ | ⟨b, _ | ⟨c, rest⟩⟩⟩
  · exact ⟨_, rfl, rfl⟩
  · exact ⟨_, rfl, by simp [IfStream.remaining, IfStream.seekg, IfStream.clear, IfStream.read]⟩
  · exact ⟨_, rfl, by simp [IfStream.remaining, IfStream.seekg, IfStream.clear, IfStream.read]⟩
  · by_cases h : a = 239 ∧ b = 187 ∧ c = 191
    · obtain ⟨rfl, rfl, rfl⟩ := h
      refine ⟨_, rfl, ?_⟩
      simp [IfStream.remaining, IfStream.read]
    · refine ⟨IfStream.seekg (IfStream.read ⟨a :: b :: c :: rest, 0, false, 0⟩ 3).2 0, ?_, ?_⟩
      · simp only [openUtf8FileSkipBom, IfStream.read]
        simp only [Bool.false_eq_true, if_false, List.drop_zero, List.take_succ_cons,
          List.take_zero, List.length_cons, List.length_nil, Nat.zero_add, Nat.reduceAdd,
          Nat.lt_irrefl, decide_False, Nat.sub_self, List.replicate_zero, List.append_nil,
          List.getD_cons_zero, List.getD_cons_succ, if_true]
        have hb : (decide (a = 239) && decide (b = 187) && decide (c = 191)) = false := by
          simp only [Bool.and_eq_false_iff, decide_eq_false_iff_not]
          by_cases ha : a = 239
          · by_cases hb : b = 187
            · right; exact fun hc => h ⟨ha, hb, hc⟩
            · left; right; exact hb
          · left; left; exact ha
        simp [hb]
      · have : ¬ ([a, b, c] = [239, 187, 191]) := by
          intro e
          simp only [List.cons.injEq, and_true] at e
          exact h e
        simp [IfStream.remaining, IfStream.seekg, IfStream.read, this]

/-- C18: BOM skipping.  For every readable file, the bytes that remain to be
read from the stream `openUtf8FileSkipBom` returns are the file's bytes
without the first three when the file begins with EF BB BF, and all of the
file's bytes otherwise (shorter files and partial matches included); and
the function raises an error exactly when the file cannot be opened. -/
theorem C18_bom_skipping (path : Str) :
    (∀ bytes : List Nat, ∃ s, openUtf8FileSkipBom path (some bytes) = .ok s
        ∧ s.remaining = (if bytes.take 3 = [239, 187, 191] then bytes.drop 3 else bytes))
      ∧ (∀ file : Option (List Nat),
          (∃ e, openUtf8FileSkipBom path file = .error e) ↔ file = none) := by
  refine ⟨openUtf8FileSkipBom_remaining path, ?_⟩
  intro file
  constructor
  · rintro ⟨e, he⟩
    cases file with
    | none => rfl
    | some bytes =>
      obtain ⟨s, hs, _⟩ := openUtf8FileSkipBom_remaining path bytes
      rw [hs] at he
      cases he
  · rintro rfl
    exact ⟨_, rfl⟩

/-- C18 at a file with a BOM, a two-byte file, a partial match, and a file
that cannot be opened. -/
theorem C18_bom_skipping_witness :
    (∃ s, openUtf8FileSkipBom [] (some [239, 187, 191, 104, 105]) = .ok s
        ∧ s.remaining = [104, 105])
      ∧ (∃ s, openUtf8FileSkipBom [] (some [239, 187]) = .ok s ∧ s.remaining = [239, 187])
      ∧ (∃ s, openUtf8FileSkipBom [] (some [239, 187, 104, 105]) = .ok s
        ∧ s.remaining = [239, 187, 104, 105])
      ∧ (∃ e, openUtf8FileSkipBom [] none = .error e) := by
  refine ⟨?_, ?_, ?_, ((C18_bom_skipping []).2 none).mpr rfl⟩
  · obtain ⟨s, h1, h2⟩ := (C18_bom_skipping []).1 [239, 187, 191, 104, 105]
    exact ⟨s, h1, h2.trans (by decide)⟩
  · obtain ⟨s, h1, h2⟩ := (C18_bom_skipping []).1 [239, 187]
    exact ⟨s, h1, h2.trans (by decide)⟩
  · obtain ⟨s, h1, h2⟩ := (C18_bom_skipping []).1 [239, 187, 104, 105]
    exact ⟨s, h1, h2.trans (by decide)⟩

/-! ## Claim C19 -/

theorem signedDecimal_head (s : Str) (v : Int) (h : signedDecimal s = some v) :
    s.dropWhile isspace = s := by
  cases s with
  | nil => rfl
  | cons c cs =>
    have hsp : isspace c = false := by
      simp only [signedDecimal] at h
      by_cases h1 : c.toNat = 45
      · simp [isspace, h1]
      · by_cases h2 : c.toNat = 43
        · simp [isspace, h2]
        · simp only [h1, h2, if_false] at h
          split at h
          · rename_i hd
            have := List.all_eq_true.mp hd c (by simp)
            exact (isdigit_props c this).2.1
          · cases h
    simp [List.dropWhile_cons, hsp]

theorem ParseValue_int_signedDecimal (s : Str) (v n : Int) (hs : signedDecimal s = some v)
    (h : ParseValue s = .int n) : n = v ∧ INT_MIN ≤ v ∧ v ≤ INT_MAX := by
  obtain ⟨h1, h2, h3⟩ := stoi_full s n (ParseValue_int s n h)
  rw [signedDecimal_head s v hs, hs] at h1
  simp only [Option.some.injEq] at h1
  subst h1
  exact ⟨rfl, h2, h3⟩

/-- C19: integer overflow in `ParseValue` never wraps.  For every optionally
signed string of decimal digits whose value lies outside the 32-bit range,
`ParseValue` (a total function: every exception is caught) returns no
integer at all, and its result is that of the floating-point attempt of
lines 85-92; and whenever `ParseValue` returns `Int n` for such a digit
string, `n` is exactly the value of the string. -/
theorem C19_integer_overflow :
    (∀ (s : Str) (v : Int), signedDecimal s = some v → (v < INT_MIN ∨ INT_MAX < v) →
        (∀ n : Int, ParseValue s ≠ .int n)
          ∧ ParseValue s
            = (match stod s with
               | .ok (val, pos) => if pos = s.length then .float val else .str s
               | .error _ => .str s))
      ∧ (∀ (s : Str) (v n : Int), signedDecimal s = some v → ParseValue s = .int n → n = v) := by
  refine ⟨?_, fun s v n hs h => (ParseValue_int_signedDecimal s v n hs h).1⟩
  intro s v hs hv
  have hnot : ∀ n : Int, ParseValue s ≠ .int n := by
    intro n h
    obtain ⟨_, h2, h3⟩ := ParseValue_int_signedDecimal s v n hs h
    omega
  refine ⟨hnot, ?_⟩
  have h0 : s ≠ [] := by
    intro e; subst e; simp [signedDecimal] at hs
  have hn1 : signedDecimal "true".toList = none := by rfl
  have hn2 : signedDecimal "TRUE".toList = none := by rfl
  have hn3 : signedDecimal "false".toList = none := by rfl
  have hn4 : signedDecimal "FALSE".toList = none := by rfl
  have h1 : ¬ (s = "true".toList ∨ s = "TRUE".toList) := by
    rintro (e | e) <;> subst e
    · rw [hn1] at hs; cases hs
    · rw [hn2] at hs; cases hs
  have h2 : ¬ (s = "false".toList ∨ s = "FALSE".toList) := by
    rintro (e | e) <;> subst e
    · rw [hn3] at hs; cases hs
    · rw [hn4] at hs; cases hs
  have hp : ParseValue s = (match stoi s with
      | .ok (val, pos) => if pos = s.length then .int val else
          (match stod s with
            | .ok (val, pos) => if pos = s.length then .float val else .str s
            | .error _ => .str s)
      | .error _ => (match stod s with
            | .ok (val, pos) => if pos = s.length then .float val else .str s
            | .error _ => .str s)) := by
    unfold ParseValue
    rw [if_neg h0, if_neg h1, if_neg h2]
  cases hst : stoi s with
  | error e => rw [hp, hst]
  | ok r =>
    obtain ⟨val, pos⟩ := r
    by_cases hpos : pos = s.length
    · exfalso
      apply hnot val
      rw [hp, hst]
      simp only [hpos, if_true]
    · rw [hp, hst]
      simp only [hpos, if_false]

/-- C19 at `2147483648` and `-2147483649` (no integer is returned) and at
`+2147483647` (the greatest 32-bit value is returned exactly). -/
theorem C19_integer_overflow_witness :
    (∀ n : Int, ParseValue "2147483648".toList ≠ .int n)
      ∧ (∀ n : Int, ParseValue "-2147483649".toList ≠ .int n)
      ∧ ParseValue "+2147483647".toList = .int 2147483647 :=
  ⟨(C19_integer_overflow.1 "2147483648".toList 2147483648 (by rfl) (by decide)).1,
   (C19_integer_overflow.1 "-2147483649".toList (-2147483649) (by rfl) (by decide)).1,
   by rfl⟩

/-! ## Claim C20 -/

/-- The frame property of `SetNestedValue` for a first segment that
`std::stoi` rejects: if the call on an object completes, the result is an
object in which every top-level entry under another key is as before. -/
theorem SetNestedValue_frame (ms : List (Str × Json)) (key k : Str) (rest : List Str) (v out : Json)
    (hsplit : getlines dot key = k :: rest) (hk : arrayIndex k = none)
    (h : SetNestedValue (.obj ms) key v = .ok out) :
    ∃ ms1, out = .obj ms1 ∧ ∀ k1, k1 ≠ k → objFind k1 ms1 = objFind k1 ms := by
  rw [SetNestedValue, hsplit] at h
  cases rest with
  | nil =>
    simp only [setPath, hk, Json.setKey, Except.ok.injEq] at h
    exact ⟨_, h.symm, fun k1 hne => objFind_objSet_other _ _ _ _ (Ne.symm hne)⟩
  | cons k2 rest2 =>
    simp only [setPath, hk, bind, Except.bind] at h
    by_cases hc : (Json.obj ms).contains k = true
    · simp only [hc, if_true] at h
      split at h
      · cases h
      · simp only [Json.setKey, Except.ok.injEq] at h
        exact ⟨_, h.symm, fun k1 hne => objFind_objSet_other _ _ _ _ (Ne.symm hne)⟩
    · simp only [hc, Bool.false_eq_true, if_false, Json.setKey] at h
      split at h
      · cases h
      · simp only [Except.ok.injEq] at h
        refine ⟨_, h.symm, fun k1 hne => ?_⟩
        rw [objFind_objSet_other _ _ _ _ (Ne.symm hne), objFind_objSet_other _ _ _ _ (Ne.symm hne)]

/-- The frame property at the record with `age` and `tags`, assigned the path
`address.city`: both other entries are unchanged. -/
theorem SetNestedValue_frame_example :
    ∃ ms1, SetNestedValue (.obj [("age".toList, .int 5), ("tags".toList, .arr [.int 1])])
        "address.city".toList (.str "Kobe".toList) = .ok (.obj ms1)
      ∧ objFind "age".toList ms1 = some (.int 5)
      ∧ objFind "tags".toList ms1 = some (.arr [.int 1]) := by
  have hset : SetNestedValue (.obj [("age".toList, .int 5), ("tags".toList, .arr [.int 1])])
      "address.city".toList (.str "Kobe".toList)
      = .ok (.obj [("address".toList, .obj [("city".toList, .str "Kobe".toList)]),
          ("age".toList, .int 5), ("tags".toList, .arr [.int 1])]) := by rfl
  obtain ⟨ms1, hms, hf⟩ := SetNestedValue_frame [("age".toList, .int 5), ("tags".toList, .arr [.int 1])]
    "address.city".toList "address".toList ["city".toList] (.str "Kobe".toList) _
    (by rfl) (by rfl) hset
  refine ⟨ms1, by rw [hset, hms], ?_, ?_⟩
  · rw [hf _ (by decide)]; rfl
  · rw [hf _ (by decide)]; rfl
/-- C20, the code at the failing input: the record `{"name": "bob"}` and the
key `2nd_phone`, whose first segment is an object key (it is no integer).
`std::stoi` reads the leading `2` (lines 122-125, the defect of C6), the
segment is classified as array index 2, and line 132 replaces the whole
record by an array: the entry `name` is gone.  In `main` the input
`name,2nd_phone` / `bob,1` therefore ends with the missing-name error.  A
first segment that `std::stoi` rejects, such as `phone2`, leaves `name` as
it was. -/
theorem C20_first_segment_read_as_index :
    arrayIndex "2nd_phone".toList = some 2
      ∧ SetNestedValue (.obj [(nameKey, .str "bob".toList)]) "2nd_phone".toList (.int 1)
        = .ok (.arr [.null, .null, .int 1])
      ∧ buildRecord ["name".toList, "2nd_phone".toList] ["bob".toList, "1".toList]
        = .ok (.arr [.null, .null, .int 1])
      ∧ main (some "name,2nd_phone\nbob,1\n".toList)
        = .exited 1 ("エラー: ".toList ++ missingNameMessage 1 ++ [newline]) [] none
      ∧ arrayIndex "phone2".toList = none
      ∧ SetNestedValue (.obj [(nameKey, .str "bob".toList)]) "phone2".toList (.int 1)
        = .ok (.obj [(nameKey, .str "bob".toList), ("phone2".toList, .int 1)]) := by
  refine ⟨by rfl, by rfl, by rfl, by rfl, by rfl, by rfl⟩
end ToolBox
